import Mathlib

/-!
# A verification development for `hw1/shell.c`

The file embeds the command shell of `hw1/shell.c` in Lean: the built-in
table and `lookup`, the redirector `redirect`, the program launcher `run_prog`,
the built-ins `cmd_cd`, `cmd_pwd`, `cmd_help`, `cmd_quit`, and the dispatch loop
`shell`.

Modelling conventions.

* A `char *` is `Option String` (`none` is the NULL pointer); a token array
  `tok_t *` is the list of its cells.  A read of a cell outside the list is the
  fault `out_of_bounds`.
* One process is described by a record `Proc` (working directory, what
  descriptors 0 and 1 are bound to, the calls it has made so far).  A function
  of the program is a function from `Proc` to `Res`: it either returns to its
  caller, or the process stops running shell code (exit, successful `execv`,
  fault).
* The operating system and the functions of `io.h` / `parse.h`, which are not
  part of `shell.c`, are the fields of `Sys`; every theorem quantifies
  over them.  `fork` returns twice, so a run is followed in one process at a
  time: the value `fork` returned there selects the branch.
* Descriptors 0 and 1 are open when `redirect` runs, so `open` returns neither
  of them, and `dup2` onto them succeeds.
* `strcat` onto a token is string concatenation (each token has storage for
  the appended text).
* `init_shell` is reduced to the `isatty` test; terminal and job control setup
  is outside the model.
* The `int` counter `line_num` is an integer kept in the 32-bit two's
  complement range.
-/

namespace Shell

/-! ## Data model -/

/-- A token cell (`tok_t`, a `char *`): `none` is NULL, the terminator. -/
abbrev tok_t := Option String

/-- The four built-in command functions that `cmd_table` points to. -/
inductive cmd_fun_t
  | cmd_help
  | cmd_quit
  | cmd_pwd
  | cmd_cd
  deriving DecidableEq, Repr

/-- Built-in command descriptor (`struct fun_desc`). -/
structure fun_desc_t where
  fn : cmd_fun_t
  cmd : String
  doc : String
  deriving DecidableEq, Repr

/-- The built-in table, in source order. -/
def cmd_table : List fun_desc_t :=
  [ ⟨.cmd_help, "?", "show this help menu"⟩,
    ⟨.cmd_quit, "quit", "quit the command shell"⟩,
    ⟨.cmd_pwd, "pwd", "print the current working directory"⟩,
    ⟨.cmd_cd, "cd", "change the current working directory"⟩ ]

/-- The two ways `redirect` calls `open`: `O_RDONLY`, and
`O_WRONLY|O_TRUNC|O_CREAT` with mode `S_IRUSR|S_IRGRP|S_IWGRP|S_IWUSR`. -/
inductive OpenFlags
  | rdonly
  | wronly_trunc_creat
  deriving DecidableEq, Repr

/-- What a file descriptor is bound to: what the process inherited, or a file
opened by this process under the given name. -/
inductive Binding
  | inherited
  | file (path : tok_t) (flags : OpenFlags)
  deriving DecidableEq, Repr

/-- The calls a process makes, in the order it makes them. -/
inductive Event
  | open_ (path : tok_t) (flags : OpenFlags) (ret : Int)
  | dup2 (fd : Int) (newfd : Nat)
  | execv (path : tok_t) (argv : List String) (ok : Bool)
  | fork (ret : Int)
  | waitpid (pid : Int) (ret : Int)
  | chdir (path : tok_t) (ok : Bool)
  | printf (text : String)
  | prompt (text : String)
  | call_builtin (fn : cmd_fun_t) (args : List tok_t)
  | call_run_prog (arg : List tok_t)
  deriving DecidableEq, Repr

/-- Reasons for which a process stops by an error: a read outside an array, a
null pointer given to `strcat`, and the bound on the rounds of a loop of the
model (`redirect_fuel` shows that it is never reached). -/
inductive Fault
  | out_of_bounds
  | null_deref
  | fuel
  deriving DecidableEq, Repr

/-- How a process stops running shell code. -/
inductive Halt
  | exited (code : Int)
  | replaced (path : tok_t) (argv : List String)
  | fault (what : Fault)
  deriving DecidableEq, Repr

/-- The state of one process. `nopen` and `nexec` count its `open` and `execv`
calls, `clock` its other system calls. -/
structure Proc where
  cwd : String
  fd0 : Binding
  fd1 : Binding
  nopen : Nat
  nexec : Nat
  clock : Nat
  trace : List Event
  deriving DecidableEq, Repr

/-- Result of running a function of the program in a process. -/
inductive Res (α : Type)
  | ret (a : α) (p : Proc)
  | halt (h : Halt) (p : Proc)
  deriving DecidableEq, Repr

/-- The process state a result carries. -/
def Res.proc {α : Type} : Res α → Proc
  | .ret _ p => p
  | .halt _ p => p

/-- The environment: results of system calls, and the functions of `parse.h`
that `shell.c` calls.

* `open_ret k path flags`: return value of the `k`-th `open` call;
* `execv_ok k path argv`: whether the `k`-th `execv` call replaces the image
  (otherwise it returns -1);
* `fork_ret`, `waitpid_ret`: return values of `fork` and `waitpid`;
* `chdir_to t cwd path`: the working directory after a successful
  `chdir(path)`, `none` when it fails (the directory is then unchanged);
* `pathconf_ret`: value of `pathconf(".", _PC_PATH_MAX)`;
* `malloc t size`: `none` when the allocation fails, else the indeterminate
  initial contents of the buffer;
* `getcwd_ok t cwd size`: whether `getcwd` stores the working directory;
* `getenv_PATH`: value of `getenv("PATH")`;
* `get_toks`: the tokens `get_toks` finds; the array it returns is these
  tokens followed by the terminator;
* `isatty`: value of `isatty(STDIN_FILENO)`. -/
structure Sys where
  open_ret : Nat → tok_t → OpenFlags → Int
  execv_ok : Nat → tok_t → List String → Bool
  fork_ret : Nat → Int
  waitpid_ret : Nat → Int → Int
  chdir_to : Nat → String → tok_t → Option String
  pathconf_ret : Nat → Int
  malloc : Nat → Nat → Option String
  getcwd_ok : Nat → String → Nat → Bool
  getenv_PATH : tok_t
  get_toks : tok_t → List String
  isatty : Bool

/-- Modelled from the spec: `get_toks` (declared in `parse.h`) is not part of
`shell.c`; by the spec (4.1) the array it returns holds the tokens, in
order, followed by the NULL terminator. -/
def tok_array (toks : List String) : List tok_t :=
  toks.map some ++ [none]

/-- The argument vector `execv` reads from an array: the entries before the
first NULL. -/
def argv : List tok_t → List String
  | some s :: rest => s :: argv rest
  | _ => []

/-- Appends an event to the trace of a process. -/
def Proc.log (p : Proc) (e : Event) : Proc :=
  { p with trace := p.trace ++ [e] }

/-- Advances the system call clock. -/
def Proc.tick (p : Proc) : Proc :=
  { p with clock := p.clock + 1 }

/-- C `int` increment, reduced to the 32-bit two's complement range. -/
def int_succ (x : Int) : Int :=
  (x + 1 + 2 ^ 31) % 2 ^ 32 - 2 ^ 31

/-- The cast `(size_t)size` of a `long`. -/
def to_size_t (size : Int) : Nat :=
  (size % 2 ^ 64).toNat

/-! ## Built-in registry -/

/-- The `for` loop of `lookup`, from table index `i` on. -/
def lookupFrom (cmd : tok_t) : List fun_desc_t → Nat → Int
  | [], _ => -1
  | d :: rest, i =>
    if cmd = some d.cmd then (i : Int) else lookupFrom cmd rest (i + 1)

/-- Looks up the built-in command, if it exists (`lookup`). -/
def lookup (cmd : tok_t) : Int :=
  lookupFrom cmd cmd_table 0

/-! ## Redirector -/

/-- The statement `if ((fd = open(path, flags)) >= 0) dup2(fd, newfd);`. -/
def open_dup2 (sys : Sys) (p : Proc) (path : tok_t) (flags : OpenFlags)
    (newfd : Nat) : Proc :=
  let fd := sys.open_ret p.nopen path flags
  let p1 := { p with nopen := p.nopen + 1,
                     trace := p.trace ++ [Event.open_ path flags fd] }
  if 0 ≤ fd then
    let p2 := p1.log (Event.dup2 fd newfd)
    if newfd = 0 then { p2 with fd0 := Binding.file path flags }
    else if newfd = 1 then { p2 with fd1 := Binding.file path flags }
    else p2
  else p1

/-- The `while` loop of `redirect`, entered with index `i` and flag `is_arg`.
The loop runs at most once per cell, which `fuel` bounds. -/
def redirectLoop (sys : Sys) :
    Nat → Nat → Bool → List tok_t → Proc → Res (List tok_t)
  | 0, _, _, _, p => .halt (.fault .fuel) p
  | fuel + 1, i, is_arg, arg, p =>
    match arg[i]? with
    | none => .halt (.fault .out_of_bounds) p
    | some none => .ret arg p
    | some (some s) =>
      let r1 : Res Bool :=
        if s = "<" then
          match arg[i + 1]? with
          | none => .halt (.fault .out_of_bounds) p
          | some path => .ret false (open_dup2 sys p path .rdonly 0)
        else .ret is_arg p
      match r1 with
      | .halt h p1 => .halt h p1
      | .ret is_arg1 p1 =>
        let r2 : Res Bool :=
          if s = ">" then
            match arg[i + 1]? with
            | none => .halt (.fault .out_of_bounds) p1
            | some path => .ret false (open_dup2 sys p1 path .wronly_trunc_creat 1)
          else .ret is_arg1 p1
        match r2 with
        | .halt h p2 => .halt h p2
        | .ret is_arg2 p2 =>
          let arg2 := if is_arg2 = false then arg.set i none else arg
          redirectLoop sys fuel (i + 1) is_arg2 arg2 p2

/-- The function `redirect`: returns the (mutated) array. -/
def redirect (sys : Sys) (arg : List tok_t) (p : Proc) : Res (List tok_t) :=
  redirectLoop sys (arg.length + 1) 0 true arg p

/-! ## Program launcher -/

/-- The PATH loop of `run_prog`: `path` holds the entries not yet tried. -/
def path_loop (sys : Sys) (prog_name : tok_t) :
    List String → List tok_t → Proc → Res Unit
  | [], _, p => .ret () p
  | d :: rest, arg, p =>
    match prog_name with
    | none => .halt (.fault .null_deref) p
    | some name =>
      let cand := d ++ "/" ++ name
      let arg1 := arg.set 0 (some cand)
      let ok := sys.execv_ok p.nexec (some cand) (argv arg1)
      let p1 := { p with nexec := p.nexec + 1,
                         trace := p.trace ++ [Event.execv (some cand) (argv arg1) ok] }
      if ok then .halt (.replaced (some cand) (argv arg1)) p1
      else path_loop sys prog_name rest arg1 p1

/-- The child branch of `run_prog` (`child_pid == 0`). -/
def run_prog_child (sys : Sys) (arg : List tok_t) (p : Proc) : Res Unit :=
  match redirect sys arg p with
  | .halt h p1 => .halt h p1
  | .ret arg1 p1 =>
    match arg1[0]? with
    | none => .halt (.fault .out_of_bounds) p1
    | some a0 =>
      let ok := sys.execv_ok p1.nexec a0 (argv arg1)
      let p2 := { p1 with nexec := p1.nexec + 1,
                          trace := p1.trace ++ [Event.execv a0 (argv arg1) ok] }
      if ok then .halt (.replaced a0 (argv arg1)) p2
      else path_loop sys a0 (sys.get_toks sys.getenv_PATH) arg1 p2

/-- The parent branch of `run_prog` (`child_pid != 0`). -/
def run_prog_parent (sys : Sys) (child_pid : Int) (p : Proc) : Res Unit :=
  let pid := sys.waitpid_ret p.clock child_pid
  let p1 := (p.tick).log (Event.waitpid child_pid pid)
  if pid < 0 then .ret () (p1.log (Event.printf "waitpid() error in run_prog()!\n"))
  else .ret () p1

/-- The function `run_prog`, in the process where `fork` returned
`sys.fork_ret p.clock`. -/
def run_prog (sys : Sys) (arg : List tok_t) (p : Proc) : Res Unit :=
  let child_pid := sys.fork_ret p.clock
  let p1 := (p.tick).log (Event.fork child_pid)
  if child_pid = 0 then run_prog_child sys arg p1
  else run_prog_parent sys child_pid p1

/-! ## Built-ins -/

/-- Prints the current working directory (`cmd_pwd`). The argument is not
used; `none` is the NULL pointer `cmd_cd` passes. -/
def cmd_pwd (sys : Sys) (_arg : Option (List tok_t)) (p : Proc) : Res Int :=
  let size := sys.pathconf_ret p.clock
  match sys.malloc p.clock (to_size_t size) with
  | some junk =>
    let buf := if sys.getcwd_ok p.clock p.cwd (to_size_t size) then p.cwd else junk
    .ret 1 ((p.tick).log (Event.printf (buf ++ "\n")))
  | none => .ret 1 p.tick

/-- Changes the current working directory (`cmd_cd`). -/
def cmd_cd (sys : Sys) (arg : List tok_t) (p : Proc) : Res Int :=
  match arg[0]? with
  | none => .halt (.fault .out_of_bounds) p
  | some a0 =>
    match sys.chdir_to p.clock p.cwd a0 with
    | some dir =>
      let p1 := ({ p with cwd := dir }.tick).log (Event.chdir a0 true)
      match cmd_pwd sys none p1 with
      | .ret _ p2 => .ret 1 p2
      | .halt h p2 => .halt h p2
    | none =>
      let p1 := (p.tick).log (Event.chdir a0 false)
      .ret 0 (p1.log (Event.printf "Change working directory aborts!\n"))

/-- Prints a description of every built-in (`cmd_help`). -/
def cmd_help (_arg : Option (List tok_t)) (p : Proc) : Res Int :=
  .ret 1 (cmd_table.foldl
    (fun q d => q.log (Event.printf (d.cmd ++ " - " ++ d.doc ++ "\n"))) p)

/-- Quits this shell (`cmd_quit`): `exit(0)`. -/
def cmd_quit (_arg : Option (List tok_t)) (p : Proc) : Res Int :=
  .halt (.exited 0) p

/-- A call through the function pointer `cmd_table[fundex].fun`. -/
def call_fun (sys : Sys) (fn : cmd_fun_t) (args : List tok_t) (p : Proc) : Res Int :=
  match fn with
  | .cmd_help => cmd_help (some args) p
  | .cmd_quit => cmd_quit (some args) p
  | .cmd_pwd => cmd_pwd sys (some args) p
  | .cmd_cd => cmd_cd sys args p

/-! ## Dispatch loop -/

/-- Drops the value a call returns, as the dispatch loop does. -/
def Res.discard {α : Type} : Res α → Res Unit
  | .ret _ p => .ret () p
  | .halt h p => .halt h p

/-- One dispatch step of `shell` (the body of the loop between `get_toks` and
the prompt): `tokens` is the array `get_toks` returned. -/
def dispatch (sys : Sys) (tokens : List tok_t) (p : Proc) : Res Unit :=
  match tokens[0]? with
  | none => .halt (.fault .out_of_bounds) p
  | some t0 =>
    let fundex := lookup t0
    if 0 ≤ fundex then
      match cmd_table[fundex.toNat]? with
      | none => .halt (.fault .out_of_bounds) p
      | some d =>
        (call_fun sys d.fn (tokens.drop 1)
          (p.log (Event.call_builtin d.fn (tokens.drop 1)))).discard
    else
      run_prog sys tokens (p.log (Event.call_run_prog tokens))

/-- The `while` loop of `shell`: `lines` are the lines `freadln` still
returns before it reports the end of the input. -/
def shell_loop (sys : Sys) (interactive : Bool) :
    List String → Int → Proc → Res Int
  | [], _, p => .ret 0 p
  | line :: rest, line_num, p =>
    match dispatch sys (tok_array (sys.get_toks (some line))) p with
    | .halt h p1 => .halt h p1
    | .ret _ p1 =>
      if interactive then
        let line_num1 := int_succ line_num
        shell_loop sys interactive rest line_num1
          (p1.log (Event.prompt (toString line_num1 ++ ": ")))
      else shell_loop sys interactive rest line_num p1

/-- The function `shell`, run on the input `lines`. -/
def shell (sys : Sys) (lines : List String) (p : Proc) : Res Int :=
  let shell_is_interactive := sys.isatty
  let line_num : Int := 0
  let p1 := if shell_is_interactive then
      p.log (Event.prompt (toString line_num ++ ": "))
    else p
  shell_loop sys shell_is_interactive lines line_num p1

/-! ## Sample environments and states -/

/-- A process that has made no call yet. -/
def proc0 : Proc :=
  ⟨"/home", .inherited, .inherited, 0, 0, 0, []⟩

/-- A tokenizer on a few sample lines (blank-separated words). -/
def sample_get_toks : tok_t → List String
  | some "nosuchprog" => ["nosuchprog"]
  | some "?" => ["?"]
  | some "pwd" => ["pwd"]
  | some "cd /tmp" => ["cd", "/tmp"]
  | some "cat <" => ["cat", "<"]
  | some "ls -l > out" => ["ls", "-l", ">", "out"]
  | some "/usr/bin /bin" => ["/usr/bin", "/bin"]
  | _ => []

/-- An environment in which every `open` succeeds, no `execv` does, `fork`
returns 0 (the process followed is the child), and PATH is empty. -/
def sysChild : Sys where
  open_ret := fun k _ _ => 3 + k
  execv_ok := fun _ _ _ => false
  fork_ret := fun _ => 0
  waitpid_ret := fun _ pid => pid
  chdir_to := fun _ _ _ => none
  pathconf_ret := fun _ => 4096
  malloc := fun _ _ => some ""
  getcwd_ok := fun _ _ _ => true
  getenv_PATH := some ""
  get_toks := sample_get_toks
  isatty := false

/-- The child's environment when PATH lists `/usr/bin` and `/bin` and only
`/bin/ls` can be executed. -/
def sysPath : Sys :=
  { sysChild with
    execv_ok := fun _ path _ => decide (path = some "/bin/ls")
    getenv_PATH := some "/usr/bin /bin" }

/-- The environment of an interactive shell process (every `fork` returns the
child's id 100, every `chdir` succeeds, `waitpid` succeeds). -/
def sysParent : Sys :=
  { sysChild with
    fork_ret := fun _ => 100
    chdir_to := fun _ _ path => path
    isatty := true }

/-- The shell's environment when the allocation of the buffer in `cmd_pwd`
fails. -/
def sysNoMem : Sys :=
  { sysParent with malloc := fun _ _ => none }

/-! ## Reference descriptions used to state the properties of `redirect` -/

/-- Whether a token is a redirection operator. -/
def is_op (s : String) : Bool :=
  s = "<" || s = ">"

/-- The cells of a token sequence after `redirect`: a token stays while no
operator has been met (`is_arg`), later cells hold the terminator. -/
def strip_args : Bool → List String → List tok_t
  | _, [] => []
  | is_arg, s :: rest =>
    let keep := is_arg && !is_op s
    (if keep then some s else none) :: strip_args keep rest

/-- The effect on the process of scanning the tokens left to right, each
operator opening the cell that follows it. -/
def redirect_effect (sys : Sys) : List String → Proc → Proc
  | [], p => p
  | s :: rest, p =>
    let p1 := if s = "<" then open_dup2 sys p rest.head? .rdonly 0 else p
    let p2 := if s = ">" then open_dup2 sys p1 rest.head? .wronly_trunc_creat 1 else p1
    redirect_effect sys rest p2

/-- The cell that follows each token of a sequence: the next token, and the
terminator after the last one. -/
def following (toks : List String) : List tok_t :=
  toks.tail.map some ++ [none]

/-- The `open` call an operator token asks for, given the cell after it. -/
def open_call_of (s : String) (next : tok_t) : Option (tok_t × OpenFlags) :=
  if s = "<" then some (next, .rdonly)
  else if s = ">" then some (next, .wronly_trunc_creat)
  else none

/-- The `open` calls a token sequence asks for, one per operator, in order:
each operator paired with the cell that follows it. -/
def open_calls (toks : List String) : List (tok_t × OpenFlags) :=
  (toks.zip (following toks)).filterMap (fun x => open_call_of x.1 x.2)

/-- An `open` call together with the value it returned. -/
structure OpenCall where
  path : tok_t
  flags : OpenFlags
  ret : Int
  deriving DecidableEq, Repr

/-- The calls of a list with their results, the first being the `k`-th `open`
call of the process. -/
def open_results (sys : Sys) : Nat → List (tok_t × OpenFlags) → List OpenCall
  | _, [] => []
  | k, c :: rest => ⟨c.1, c.2, sys.open_ret k c.1 c.2⟩ :: open_results sys (k + 1) rest

/-- The descriptor an `open` call of `redirect` is duplicated onto. -/
def target_fd (flags : OpenFlags) : Nat :=
  match flags with
  | .rdonly => 0
  | .wronly_trunc_creat => 1

/-- The events of one processed operator: the `open`, and the `dup2` when the
`open` succeeded. -/
def call_events (c : OpenCall) : List Event :=
  if 0 ≤ c.ret then
    [Event.open_ c.path c.flags c.ret, Event.dup2 c.ret (target_fd c.flags)]
  else [Event.open_ c.path c.flags c.ret]

/-- Whether a call used the given flags and succeeded. -/
def opened_with (flags : OpenFlags) (c : OpenCall) : Bool :=
  decide (c.flags = flags) && decide (0 ≤ c.ret)

/-- The binding of a descriptor after a list of calls: the file of the last
call with the given flags that succeeded, the initial binding when there is
none. -/
def last_bound (flags : OpenFlags) (init : Binding) (cs : List OpenCall) : Binding :=
  match (cs.filter (opened_with flags)).getLast? with
  | some c => .file c.path flags
  | none => init

/-- The tokens that precede the first redirection operator. -/
def args_before_op (toks : List String) : List String :=
  toks.takeWhile (fun s => !is_op s)

/-- Whether every redirection operator of a token sequence is followed by a
token (and not by the terminator). -/
def ops_followed : List String → Bool
  | [] => true
  | s :: rest => (!is_op s || !rest.isEmpty) && ops_followed rest

/-- The flags `redirect` opens with for an operator token. -/
def flags_of (s : String) : OpenFlags :=
  if s = "<" then .rdonly else .wronly_trunc_creat

/-- The number of operators among the first `j` tokens: the operator at index
`j` makes the `open` call of that number. -/
def op_number (toks : List String) (j : Nat) : Nat :=
  (toks.take j).countP is_op

/-- The event of an `execv` attempt that returned. -/
def failed_exec (a : String × List String) : Event :=
  Event.execv (some a.1) a.2 false

/-! ## Classification of events, used to state what a step does not do -/

/-- The kinds of events. -/
inductive Kind
  | fd
  | exec
  | fork
  | wait
  | chdir
  | print
  | prompt
  | call
  deriving DecidableEq, Repr

/-- The kind of an event: `open` and `dup2` are the descriptor events. -/
def Event.kind : Event → Kind
  | .open_ _ _ _ => .fd
  | .dup2 _ _ => .fd
  | .execv _ _ _ => .exec
  | .fork _ => .fork
  | .waitpid _ _ => .wait
  | .chdir _ _ => .chdir
  | .printf _ => .print
  | .prompt _ => .prompt
  | .call_builtin _ _ => .call
  | .call_run_prog _ => .call

/-- The text of a prompt event. -/
def Event.prompt_text : Event → Option String
  | .prompt text => some text
  | _ => none

/-- The call one dispatch step makes for a token array: the handler of the
built-in whose name is the first token, on the cells from index 1 on, or
`run_prog` on the whole array when the first cell names no built-in. -/
def dispatch_call (tokens : List tok_t) : Event :=
  match cmd_table.find? (fun d => decide (tokens.head? = some (some d.cmd))) with
  | some d => .call_builtin d.fn (tokens.drop 1)
  | none => .call_run_prog tokens

/-- The value of the `int` counter `line_num` after `k` increments from 0. -/
def line_number (k : Nat) : Int :=
  ((k : Int) + 2 ^ 31) % 2 ^ 32 - 2 ^ 31

/-! ## Theorems -/


/-! ### List facts -/

theorem getElem?_at_length {α : Type} (pre : List α) (x : α) (tl : List α) :
    (pre ++ x :: tl)[pre.length]? = some x := by
  rw [List.getElem?_append_right (le_refl _)]
  simp

theorem getElem?_after_length (pre : List tok_t) (x : tok_t) (rest : List String)
    (junk : List tok_t) :
    (pre ++ x :: (rest.map some ++ none :: junk))[pre.length + 1]? = some rest.head? := by
  rw [List.getElem?_append_right (by omega)]
  cases rest <;> simp

theorem set_at_length {α : Type} (pre : List α) (x y : α) (tl : List α) :
    (pre ++ x :: tl).set pre.length y = pre ++ y :: tl := by
  simp

/-! ### The loop of `redirect` -/

theorem redirectLoop_eq (sys : Sys) (toks : List String) :
    ∀ (pre junk : List tok_t) (is_arg : Bool) (p : Proc) (fuel : Nat),
      toks.length < fuel →
      redirectLoop sys fuel pre.length is_arg (pre ++ (toks.map some ++ none :: junk)) p
        = .ret (pre ++ (strip_args is_arg toks ++ none :: junk))
            (redirect_effect sys toks p) := by
  induction toks with
  | nil =>
    intro pre junk is_arg p fuel hf
    obtain ⟨f, rfl⟩ : ∃ f, fuel = f + 1 := ⟨fuel - 1, by simp at hf; omega⟩
    rw [redirectLoop]
    simp only [List.map_nil, List.nil_append, getElem?_at_length]
    simp [strip_args, redirect_effect]
  | cons s rest ih =>
    intro pre junk is_arg p fuel hf
    obtain ⟨f, rfl⟩ : ∃ f, fuel = f + 1 := ⟨fuel - 1, by simp at hf; omega⟩
    have hf2 : rest.length < f := by simp at hf; omega
    have hnext := getElem?_after_length pre (some s) rest junk
    have hstep : ∀ (b : Bool) (x : tok_t) (q : Proc),
        redirectLoop sys f (pre.length + 1) b
          (pre ++ x :: (rest.map some ++ none :: junk)) q
        = .ret (pre ++ x :: (strip_args b rest ++ none :: junk))
            (redirect_effect sys rest q) := by
      intro b x q
      have := ih (pre ++ [x]) junk b q f hf2
      simpa using this
    simp only [List.map_cons, List.cons_append]
    rw [redirectLoop]
    simp only [getElem?_at_length]
    simp only [List.map_cons, List.cons_append] at hnext
    rw [hnext]
    by_cases h1 : s = "<"
    · subst h1
      simp [set_at_length, hstep, strip_args, redirect_effect, is_op]
    · by_cases h2 : s = ">"
      · subst h2
        simp [set_at_length, hstep, strip_args, redirect_effect, is_op]
      · cases is_arg <;>
          simp [h1, h2, set_at_length, hstep, strip_args, redirect_effect, is_op]

theorem redirect_eq (sys : Sys) (toks : List String) (junk : List tok_t) (p : Proc) :
    redirect sys (toks.map some ++ none :: junk) p
      = .ret (strip_args true toks ++ none :: junk) (redirect_effect sys toks p) := by
  have h := redirectLoop_eq sys toks [] junk true p
    ((toks.map some ++ none :: junk).length + 1) (by simp; omega)
  simpa [redirect] using h

theorem strip_args_false (toks : List String) :
    strip_args false toks = List.replicate toks.length none := by
  induction toks with
  | nil => rfl
  | cons s rest ih => simp [strip_args, ih, List.replicate_succ]

theorem strip_args_true (toks : List String) :
    strip_args true toks
      = (args_before_op toks).map some
        ++ List.replicate (toks.length - (args_before_op toks).length) none := by
  induction toks with
  | nil => rfl
  | cons s rest ih =>
    cases h : is_op s
    · simp [strip_args, h, ih, args_before_op, List.takeWhile_cons]
    · simp [strip_args, h, strip_args_false, args_before_op, List.takeWhile_cons,
        List.replicate_succ]

theorem argv_replicate_none (n : Nat) (tl : List tok_t) :
    argv (List.replicate n none ++ none :: tl) = [] := by
  cases n <;> simp [argv, List.replicate_succ]

theorem argv_strip_args (toks : List String) (junk : List tok_t) :
    argv (strip_args true toks ++ none :: junk) = args_before_op toks := by
  rw [strip_args_true]
  generalize args_before_op toks = front
  generalize toks.length - front.length = n
  induction front with
  | nil => simpa using argv_replicate_none n junk
  | cons s rest ih => simpa [argv] using ih

theorem args_before_op_no_op (toks : List String) (h : ∀ s ∈ toks, is_op s = false) :
    args_before_op toks = toks := by
  induction toks with
  | nil => rfl
  | cons s rest ih =>
    have hs : is_op s = false := h s (by simp)
    have hr : ∀ t ∈ rest, is_op t = false := fun t ht => h t (by simp [ht])
    have := ih hr
    simp only [args_before_op] at this ⊢
    simp [List.takeWhile_cons, hs, this]

theorem args_before_op_length_le (toks : List String) :
    (args_before_op toks).length ≤ toks.length := by
  induction toks with
  | nil => simp [args_before_op]
  | cons s rest ih =>
    simp only [args_before_op] at ih ⊢
    rw [List.takeWhile_cons]
    split
    · simp; omega
    · simp

theorem args_before_op_getElem? (toks : List String) :
    ∀ j, j < (args_before_op toks).length → (args_before_op toks)[j]? = toks[j]? := by
  induction toks with
  | nil => intro j hj; simp [args_before_op] at hj
  | cons s rest ih =>
    intro j hj
    simp only [args_before_op] at ih hj ⊢
    rw [List.takeWhile_cons] at hj ⊢
    split at hj
    · rename_i h
      rw [if_pos h]
      cases j with
      | zero => simp
      | succ k => simpa using ih k (by simpa using hj)
    · simp at hj

theorem args_before_op_all (toks : List String) :
    ∀ s ∈ args_before_op toks, is_op s = false := by
  intro s hs
  have := List.mem_takeWhile_imp hs
  simpa using this

theorem args_before_op_stop (toks : List String)
    (h : (args_before_op toks).length < toks.length) :
    ∃ s, toks[(args_before_op toks).length]? = some s ∧ is_op s = true := by
  induction toks with
  | nil => simp at h
  | cons s rest ih =>
    simp only [args_before_op] at ih h ⊢
    rw [List.takeWhile_cons] at h ⊢
    cases hs : is_op s
    · simp only [hs, Bool.not_false, if_true, List.length_cons] at h ⊢
      simpa using ih (by omega)
    · simp [hs]

theorem open_calls_cons (s : String) (rest : List String) :
    open_calls (s :: rest)
      = (open_call_of s rest.head?).toList ++ open_calls rest := by
  cases rest with
  | nil => simp [open_calls, following, List.filterMap_cons]; cases open_call_of s none <;> rfl
  | cons r rs =>
    simp only [open_calls, following, List.tail_cons, List.map_cons, List.cons_append,
      List.zip_cons_cons, List.filterMap_cons, List.head?_cons]
    cases open_call_of s (some r) <;> rfl

theorem last_bound_nil (flags : OpenFlags) (init : Binding) :
    last_bound flags init [] = init := rfl

theorem last_bound_cons (flags : OpenFlags) (init : Binding) (c : OpenCall)
    (cs : List OpenCall) :
    last_bound flags init (c :: cs)
      = last_bound flags
          (if opened_with flags c then Binding.file c.path flags else init) cs := by
  unfold last_bound
  rw [List.filter_cons]
  cases h : opened_with flags c
  · simp
  · simp only [if_true, List.getLast?_cons]
    cases (List.filter (opened_with flags) cs).getLast? <;> simp

/-- The process after the scan, in terms of the calls made and their results. -/
theorem redirect_effect_eq (sys : Sys) (toks : List String) :
    ∀ p : Proc, redirect_effect sys toks p =
      { p with
        fd0 := last_bound .rdonly p.fd0 (open_results sys p.nopen (open_calls toks)),
        fd1 := last_bound .wronly_trunc_creat p.fd1
                 (open_results sys p.nopen (open_calls toks)),
        nopen := p.nopen + (open_calls toks).length,
        trace := p.trace
                 ++ (open_results sys p.nopen (open_calls toks)).flatMap call_events } := by
  induction toks with
  | nil => intro p; simp [redirect_effect, open_calls, open_results, last_bound]
  | cons s rest ih =>
    intro p
    rw [redirect_effect, open_calls_cons]
    by_cases h1 : s = "<"
    · subst h1
      simp only [if_true, show ("<" = ">") = False by decide, if_false, ih]
      by_cases hr : 0 ≤ sys.open_ret p.nopen rest.head? .rdonly
      · simp [open_call_of, open_results, last_bound_cons, opened_with, open_dup2, hr,
          call_events, target_fd, Proc.log, Nat.add_assoc, Nat.add_comm 1]
      · simp [open_call_of, open_results, last_bound_cons, opened_with, open_dup2, hr,
          call_events, target_fd, Proc.log, Nat.add_assoc, Nat.add_comm 1]
    · by_cases h2 : s = ">"
      · subst h2
        simp only [show (">" = "<") = False by decide, if_false, if_true, ih]
        by_cases hr : 0 ≤ sys.open_ret p.nopen rest.head? .wronly_trunc_creat
        · simp [open_call_of, open_results, last_bound_cons, opened_with, open_dup2, hr,
            call_events, target_fd, Proc.log, Nat.add_assoc, Nat.add_comm 1]
        · simp [open_call_of, open_results, last_bound_cons, opened_with, open_dup2, hr,
            call_events, target_fd, Proc.log, Nat.add_assoc, Nat.add_comm 1]
      · simp [h1, h2, ih, open_call_of]

theorem open_calls_length (toks : List String) :
    (open_calls toks).length = toks.countP is_op := by
  induction toks with
  | nil => simp [open_calls]
  | cons s rest ih =>
    rw [open_calls_cons, List.countP_cons, List.length_append, ih]
    by_cases h1 : s = "<"
    · subst h1; simp [open_call_of, is_op]; omega
    · by_cases h2 : s = ">"
      · subst h2; simp [open_call_of, is_op]; omega
      · simp [open_call_of, is_op, h1, h2]

theorem open_results_length (sys : Sys) (cs : List (tok_t × OpenFlags)) :
    ∀ k, (open_results sys k cs).length = cs.length := by
  induction cs with
  | nil => intro k; rfl
  | cons c rest ih => intro k; simp [open_results, ih]

theorem open_results_getElem? (sys : Sys) (cs : List (tok_t × OpenFlags)) :
    ∀ (k n : Nat) (c : tok_t × OpenFlags), cs[n]? = some c →
      (open_results sys k cs)[n]? = some ⟨c.1, c.2, sys.open_ret (k + n) c.1 c.2⟩ := by
  induction cs with
  | nil => intro k n c h; simp at h
  | cons d rest ih =>
    intro k n c h
    cases n with
    | zero =>
      simp only [List.getElem?_cons_zero, Option.some.injEq] at h
      subst h
      simp [open_results]
    | succ m =>
      simp only [List.getElem?_cons_succ] at h
      simp only [open_results, List.getElem?_cons_succ]
      rw [ih (k + 1) m c h]
      simp [Nat.add_assoc, Nat.add_comm 1]

theorem open_call_of_op (s : String) (next : tok_t) (h : is_op s = true) :
    open_call_of s next = some (next, flags_of s) := by
  by_cases h1 : s = "<"
  · subst h1; rfl
  · by_cases h2 : s = ">"
    · subst h2; rfl
    · simp [is_op, h1, h2] at h

theorem open_call_of_not_op (s : String) (next : tok_t) (h : is_op s = false) :
    open_call_of s next = none := by
  simp only [is_op, Bool.or_eq_false_iff, decide_eq_false_iff_not] at h
  simp [open_call_of, h.1, h.2]

/-- The operator at index `j` asks for the call number `op_number toks j`, on
the cell at index `j + 1`. -/
theorem open_calls_getElem? (toks : List String) :
    ∀ (j : Nat) (s : String), toks[j]? = some s → is_op s = true →
      (open_calls toks)[op_number toks j]? = some (toks[j + 1]?, flags_of s) := by
  induction toks with
  | nil => intro j s h; simp at h
  | cons t rest ih =>
    intro j s h hop
    rw [open_calls_cons]
    cases j with
    | zero =>
      simp only [List.getElem?_cons_zero, Option.some.injEq] at h
      subst h
      simp [op_number, open_call_of_op _ _ hop, List.head?_eq_getElem?]
    | succ k =>
      simp only [List.getElem?_cons_succ] at h
      have := ih k s h hop
      simp only [op_number, List.take_succ_cons, List.countP_cons,
        List.getElem?_cons_succ] at this ⊢
      cases ht : is_op t
      · simp [open_call_of_not_op _ _ ht, this]
      · simp [open_call_of_op _ _ ht, this]

theorem ops_followed_getElem? (toks : List String) (h : ops_followed toks = true) :
    ∀ (j : Nat) (s : String), toks[j]? = some s → is_op s = true →
      ∃ name, toks[j + 1]? = some name := by
  induction toks with
  | nil => intro j s hj; simp at hj
  | cons t rest ih =>
    intro j s hj hop
    simp only [ops_followed, Bool.and_eq_true, Bool.or_eq_true, Bool.not_eq_true'] at h
    cases j with
    | zero =>
      simp only [List.getElem?_cons_zero, Option.some.injEq] at hj
      subst hj
      rcases h.1 with h1 | h1
      · rw [hop] at h1; exact absurd h1 (by simp)
      · cases rest with
        | nil => simp at h1
        | cons r rs => exact ⟨r, by simp⟩
    | succ k =>
      simp only [List.getElem?_cons_succ] at hj ⊢
      exact ih h.2 k s hj hop

theorem last_bound_none (flags : OpenFlags) (init : Binding) (cs : List OpenCall)
    (h : ∀ c ∈ cs, opened_with flags c = false) :
    last_bound flags init cs = init := by
  have : cs.filter (opened_with flags) = [] := by
    rw [List.filter_eq_nil_iff]
    intro c hc
    simp [h c hc]
  simp [last_bound, this]

theorem last_bound_last (flags : OpenFlags) (init : Binding) (pre post : List OpenCall)
    (c : OpenCall) (hc : opened_with flags c = true)
    (h : ∀ d ∈ post, opened_with flags d = false) :
    last_bound flags init (pre ++ c :: post) = .file c.path flags := by
  have : post.filter (opened_with flags) = [] := by
    rw [List.filter_eq_nil_iff]
    intro d hd
    simp [h d hd]
  simp [last_bound, List.filter_append, List.filter_cons, hc, this]

/-- The PATH loop when every attempt fails. -/
theorem path_loop_all_fail (sys : Sys) (name : String) (path : List String) :
    ∀ (x : tok_t) (tl : List tok_t) (p : Proc),
      (∀ (j : Nat) (d : String), path[j]? = some d →
        sys.execv_ok (p.nexec + j) (some (d ++ "/" ++ name))
          ((d ++ "/" ++ name) :: argv tl) = false) →
      path_loop sys (some name) path (x :: tl) p
        = .ret () { p with
            nexec := p.nexec + path.length,
            trace := p.trace ++ path.map (fun d =>
              failed_exec (d ++ "/" ++ name, (d ++ "/" ++ name) :: argv tl)) } := by
  induction path with
  | nil => intro x tl p _; simp [path_loop]
  | cons d rest ih =>
    intro x tl p h
    have h0 := h 0 d (by simp)
    simp only [Nat.add_zero] at h0
    rw [path_loop]
    simp only [List.set_cons_zero, argv, h0]
    rw [ih]
    · simp [failed_exec, Nat.add_assoc, Nat.add_comm 1]
    · intro j e hj
      have := h (j + 1) e (by simpa using hj)
      simpa [Nat.add_assoc, Nat.add_comm 1] using this

/-- The PATH loop when the attempt for the entry after `pre` is the first to
succeed. -/
theorem path_loop_first_ok (sys : Sys) (name : String) (pre : List String) :
    ∀ (d : String) (post : List String) (x : tok_t) (tl : List tok_t) (p : Proc),
      (∀ (j : Nat) (e : String), pre[j]? = some e →
        sys.execv_ok (p.nexec + j) (some (e ++ "/" ++ name))
          ((e ++ "/" ++ name) :: argv tl) = false) →
      sys.execv_ok (p.nexec + pre.length) (some (d ++ "/" ++ name))
          ((d ++ "/" ++ name) :: argv tl) = true →
      path_loop sys (some name) (pre ++ d :: post) (x :: tl) p
        = .halt (.replaced (some (d ++ "/" ++ name)) ((d ++ "/" ++ name) :: argv tl))
            { p with
              nexec := p.nexec + pre.length + 1,
              trace := p.trace ++ pre.map (fun e =>
                  failed_exec (e ++ "/" ++ name, (e ++ "/" ++ name) :: argv tl))
                ++ [Event.execv (some (d ++ "/" ++ name))
                      ((d ++ "/" ++ name) :: argv tl) true] } := by
  induction pre with
  | nil =>
    intro d post x tl p _ hok
    simp only [List.length_nil, Nat.add_zero] at hok
    simp only [List.nil_append]
    rw [path_loop]
    simp [argv, hok]
  | cons e rest ih =>
    intro d post x tl p h hok
    have h0 := h 0 e (by simp)
    simp only [Nat.add_zero] at h0
    simp only [List.cons_append]
    rw [path_loop]
    simp only [List.set_cons_zero, argv, h0]
    rw [ih]
    · simp [failed_exec, Nat.add_assoc, Nat.add_comm 1]
    · intro j f hj
      have := h (j + 1) f (by simpa using hj)
      simpa [Nat.add_assoc, Nat.add_comm 1] using this
    · simpa [Nat.add_assoc, Nat.add_comm 1] using hok

theorem argv_cons_some (s : String) (tl : List tok_t) :
    argv (some s :: tl) = s :: argv tl := rfl

theorem strip_args_cons_arg (name : String) (rest : List String)
    (hname : is_op name = false) :
    strip_args true (name :: rest) = some name :: strip_args true rest := by
  simp [strip_args, hname]

theorem redirect_effect_nexec (sys : Sys) (toks : List String) (p : Proc) :
    (redirect_effect sys toks p).nexec = p.nexec := by
  rw [redirect_effect_eq]

/-! ### Built-ins and the dispatch step -/

theorem lookup_cases (cmd : tok_t) :
    (∃ (k : Nat) (d : fun_desc_t), cmd_table[k]? = some d ∧ cmd = some d.cmd ∧
        lookup cmd = (k : Int)) ∨
    ((∀ d ∈ cmd_table, cmd ≠ some d.cmd) ∧ lookup cmd = -1) := by
  cases cmd with
  | none => right; exact ⟨by simp, by decide⟩
  | some s =>
    by_cases h0 : s = "?"
    · subst h0; left; exact ⟨0, _, rfl, rfl, by decide⟩
    by_cases h1 : s = "quit"
    · subst h1; left; exact ⟨1, _, rfl, rfl, by decide⟩
    by_cases h2 : s = "pwd"
    · subst h2; left; exact ⟨2, _, rfl, rfl, by decide⟩
    by_cases h3 : s = "cd"
    · subst h3; left; exact ⟨3, _, rfl, rfl, by decide⟩
    right
    refine ⟨?_, by simp [lookup, lookupFrom, cmd_table, h0, h1, h2, h3]⟩
    intro d hd
    simp only [cmd_table, List.mem_cons, List.mem_singleton, List.not_mem_nil, or_false] at hd
    rcases hd with rfl | rfl | rfl | rfl <;> simp [h0, h1, h2, h3]

theorem tok_array_head (toks : List String) :
    (tok_array toks)[0]? = some toks.head? := by
  cases toks <;> simp [tok_array]

theorem tok_array_drop_one (t : String) (ts : List String) :
    (tok_array (t :: ts)).drop 1 = tok_array ts := by
  simp [tok_array]

theorem dispatch_builtin (sys : Sys) (toks : List String) (p : Proc) (k : Nat)
    (d : fun_desc_t) (hk : cmd_table[k]? = some d)
    (hl : lookup toks.head? = (k : Int)) :
    dispatch sys (tok_array toks) p
      = (call_fun sys d.fn ((tok_array toks).drop 1)
          (p.log (Event.call_builtin d.fn ((tok_array toks).drop 1)))).discard := by
  unfold dispatch
  rw [tok_array_head]
  simp only [hl]
  rw [if_pos (by omega)]
  simp [hk]

theorem dispatch_external (sys : Sys) (toks : List String) (p : Proc)
    (hl : lookup toks.head? = -1) :
    dispatch sys (tok_array toks) p
      = run_prog sys (tok_array toks) (p.log (Event.call_run_prog (tok_array toks))) := by
  unfold dispatch
  rw [tok_array_head]
  simp only [hl]
  rw [if_neg (by omega)]

theorem dispatch_call_builtin (toks : List String) (k : Nat) (d : fun_desc_t)
    (hk : cmd_table[k]? = some d) (hd : toks.head? = some d.cmd) :
    dispatch_call (tok_array toks)
      = Event.call_builtin d.fn ((tok_array toks).drop 1) := by
  cases toks with
  | nil => simp at hd
  | cons t ts =>
    simp only [List.head?_cons, Option.some.injEq] at hd
    subst hd
    have hk4 : k < 4 := by
      have := (List.getElem?_eq_some.mp hk).1
      simpa [cmd_table] using this
    interval_cases k <;> simp [cmd_table] at hk <;> subst hk <;>
      simp [dispatch_call, tok_array, cmd_table]

theorem dispatch_call_external (toks : List String)
    (h : ∀ d ∈ cmd_table, toks.head? ≠ some d.cmd) :
    dispatch_call (tok_array toks) = Event.call_run_prog (tok_array toks) := by
  have hnone : cmd_table.find?
      (fun d => decide ((tok_array toks).head? = some (some d.cmd))) = none := by
    rw [List.find?_eq_none]
    intro d hd
    have := h d hd
    cases toks with
    | nil => simp [tok_array]
    | cons t ts => simpa [tok_array] using this
  simp [dispatch_call, hnone]

theorem cmd_pwd_frame (sys : Sys) (arg : Option (List tok_t)) (p : Proc) :
    ∃ q evs, cmd_pwd sys arg p = .ret 1 q ∧ q.trace = p.trace ++ evs ∧
      (∀ e ∈ evs, e.kind = .print) ∧ q.fd0 = p.fd0 ∧ q.fd1 = p.fd1 ∧ q.cwd = p.cwd := by
  cases h : sys.malloc p.clock (to_size_t (sys.pathconf_ret p.clock)) with
  | none =>
    simp only [cmd_pwd, h]
    exact ⟨_, [], rfl, by simp [Proc.tick], by simp, rfl, rfl, rfl⟩
  | some junk =>
    simp only [cmd_pwd, h]
    exact ⟨_, [_], rfl, rfl, by simp [Event.kind], rfl, rfl, rfl⟩

theorem cmd_help_frame (arg : Option (List tok_t)) (p : Proc) :
    ∃ q evs, cmd_help arg p = .ret 1 q ∧ q.trace = p.trace ++ evs ∧
      (∀ e ∈ evs, e.kind = .print) ∧ q.fd0 = p.fd0 ∧ q.fd1 = p.fd1 ∧ q.cwd = p.cwd := by
  refine ⟨_, cmd_table.map (fun d => Event.printf (d.cmd ++ " - " ++ d.doc ++ "\n")),
    rfl, ?_, ?_, rfl, rfl, rfl⟩
  · simp [cmd_table, Proc.log]
  · intro e he
    simp only [List.mem_map] at he
    obtain ⟨d, -, rfl⟩ := he
    rfl

theorem cmd_cd_frame (sys : Sys) (a0 : tok_t) (rest : List tok_t) (p : Proc) :
    ∃ r q evs, cmd_cd sys (a0 :: rest) p = .ret r q ∧ q.trace = p.trace ++ evs ∧
      (∀ e ∈ evs, e.kind = .print ∨ e.kind = .chdir) ∧ q.fd0 = p.fd0 ∧ q.fd1 = p.fd1 := by
  unfold cmd_cd
  simp only [List.getElem?_cons_zero]
  cases h : sys.chdir_to p.clock p.cwd a0 with
  | none =>
    simp only []
    refine ⟨_, _, [Event.chdir a0 false, Event.printf "Change working directory aborts!\n"],
      rfl, ?_, ?_, rfl, rfl⟩
    · simp [Proc.log, Proc.tick]
    · simp [Event.kind]
  | some dir =>
    obtain ⟨q, evs, hq, htr, hk, h0, h1, -⟩ :=
      cmd_pwd_frame sys none (({ p with cwd := dir }.tick).log (Event.chdir a0 true))
    refine ⟨1, q, Event.chdir a0 true :: evs, ?_, ?_, ?_, ?_, ?_⟩
    · simp only [hq]
    · rw [htr]; simp [Proc.log, Proc.tick]
    · intro e he
      simp only [List.mem_cons] at he
      rcases he with rfl | he
      · right; rfl
      · left; exact hk e he
    · rw [h0]; rfl
    · rw [h1]; rfl

/-- A built-in other than `quit`, called on an array with at least one cell,
returns; it only prints and changes directory. -/
theorem call_fun_frame (sys : Sys) (fn : cmd_fun_t) (a0 : tok_t) (rest : List tok_t)
    (p : Proc) (hq : fn ≠ .cmd_quit) :
    ∃ r q evs, call_fun sys fn (a0 :: rest) p = .ret r q ∧ q.trace = p.trace ++ evs ∧
      (∀ e ∈ evs, e.kind = .print ∨ e.kind = .chdir) ∧ q.fd0 = p.fd0 ∧ q.fd1 = p.fd1 := by
  cases fn with
  | cmd_quit => exact absurd rfl hq
  | cmd_help =>
    obtain ⟨q, evs, h, htr, hk, h0, h1, -⟩ := cmd_help_frame (some (a0 :: rest)) p
    exact ⟨1, q, evs, h, htr, fun e he => Or.inl (hk e he), h0, h1⟩
  | cmd_pwd =>
    obtain ⟨q, evs, h, htr, hk, h0, h1, -⟩ := cmd_pwd_frame sys (some (a0 :: rest)) p
    exact ⟨1, q, evs, h, htr, fun e he => Or.inl (hk e he), h0, h1⟩
  | cmd_cd => exact cmd_cd_frame sys a0 rest p

/-- The parent branch of `run_prog` returns, whatever `waitpid` reports. -/
theorem run_prog_parent_frame (sys : Sys) (arg : List tok_t) (p : Proc)
    (hpar : sys.fork_ret p.clock ≠ 0) :
    ∃ q evs, run_prog sys arg p = .ret () q ∧ q.trace = p.trace ++ evs ∧
      (∀ e ∈ evs, e.kind = .fork ∨ e.kind = .wait ∨ e.kind = .print) ∧
      q.fd0 = p.fd0 ∧ q.fd1 = p.fd1 := by
  unfold run_prog
  simp only [hpar, if_false]
  unfold run_prog_parent
  by_cases hw : sys.waitpid_ret (p.tick.log (Event.fork (sys.fork_ret p.clock))).clock
      (sys.fork_ret p.clock) < 0
  · simp only [hw, if_true]
    refine ⟨_, [Event.fork (sys.fork_ret p.clock),
      Event.waitpid (sys.fork_ret p.clock)
        (sys.waitpid_ret (p.clock + 1) (sys.fork_ret p.clock)), Event.printf "waitpid() error in run_prog()!\n"],
      rfl, ?_, ?_, rfl, rfl⟩
    · simp [Proc.log, Proc.tick]
    · simp [Event.kind]
  · simp only [hw, if_false]
    refine ⟨_, [Event.fork (sys.fork_ret p.clock),
      Event.waitpid (sys.fork_ret p.clock)
        (sys.waitpid_ret (p.clock + 1) (sys.fork_ret p.clock))], rfl, ?_, ?_, rfl, rfl⟩
    · simp [Proc.log, Proc.tick]
    · simp [Event.kind]

/-- The PATH loop makes `execv` calls only. -/
theorem path_loop_frame (sys : Sys) (prog_name : tok_t) (path : List String) :
    ∀ (arg : List tok_t) (p : Proc),
      ∃ evs, (path_loop sys prog_name path arg p).proc.trace = p.trace ++ evs ∧
        (∀ e ∈ evs, e.kind = .exec) := by
  induction path with
  | nil => intro arg p; exact ⟨[], by simp [path_loop, Res.proc], by simp⟩
  | cons d rest ih =>
    intro arg p
    cases prog_name with
    | none => exact ⟨[], by simp [path_loop, Res.proc], by simp⟩
    | some name =>
      rw [path_loop]
      generalize sys.execv_ok p.nexec (some (d ++ "/" ++ name))
        (argv (arg.set 0 (some (d ++ "/" ++ name)))) = ok
      cases ok with
      | true =>
        exact ⟨[Event.execv (some (d ++ "/" ++ name))
          (argv (arg.set 0 (some (d ++ "/" ++ name)))) true],
          by simp [Res.proc], by simp [Event.kind]⟩
      | false =>
        obtain ⟨evs, htr, hk⟩ := ih (arg.set 0 (some (d ++ "/" ++ name)))
          { p with nexec := p.nexec + 1,
                   trace := p.trace ++ [Event.execv (some (d ++ "/" ++ name))
                     (argv (arg.set 0 (some (d ++ "/" ++ name)))) false] }
        refine ⟨Event.execv (some (d ++ "/" ++ name))
          (argv (arg.set 0 (some (d ++ "/" ++ name)))) false :: evs, ?_, ?_⟩
        · simp only [Bool.false_eq_true, if_false]
          rw [htr]; simp
        · intro e he
          simp only [List.mem_cons] at he
          rcases he with rfl | he
          · rfl
          · exact hk e he

/-- The child branch of `run_prog` on a terminator-ended array: first the
descriptor events of the redirections, then `execv` events only. -/
theorem run_prog_child_frame (sys : Sys) (toks : List String) (junk : List tok_t)
    (p : Proc) :
    ∃ evs, (run_prog_child sys (toks.map some ++ none :: junk) p).proc.trace
        = p.trace
          ++ (open_results sys p.nopen (open_calls toks)).flatMap call_events ++ evs ∧
      (∀ e ∈ evs, e.kind = .exec) := by
  unfold run_prog_child
  rw [redirect_eq]
  have htr : (redirect_effect sys toks p).trace
      = p.trace ++ (open_results sys p.nopen (open_calls toks)).flatMap call_events := by
    rw [redirect_effect_eq]
  have h0 : ∃ a0, (strip_args true toks ++ none :: junk)[0]? = some a0 := by
    cases toks with
    | nil => exact ⟨none, by simp [strip_args]⟩
    | cons t ts =>
      exact ⟨if (true && !is_op t) = true then some t else none, by simp [strip_args]⟩
  obtain ⟨a0, h0⟩ := h0
  simp only [h0]
  generalize sys.execv_ok (redirect_effect sys toks p).nexec a0
    (argv (strip_args true toks ++ none :: junk)) = ok
  cases ok with
  | true =>
    exact ⟨[Event.execv a0 (argv (strip_args true toks ++ none :: junk)) true],
      by simp [Res.proc, htr], by simp [Event.kind]⟩
  | false =>
    obtain ⟨evs, he, hk⟩ := path_loop_frame sys a0 (sys.get_toks sys.getenv_PATH)
      (strip_args true toks ++ none :: junk)
      { redirect_effect sys toks p with
        nexec := (redirect_effect sys toks p).nexec + 1,
        trace := (redirect_effect sys toks p).trace
          ++ [Event.execv a0 (argv (strip_args true toks ++ none :: junk)) false] }
    refine ⟨Event.execv a0 (argv (strip_args true toks ++ none :: junk)) false :: evs,
      ?_, ?_⟩
    · simp only [Bool.false_eq_true, if_false]
      rw [he, htr]; simp
    · intro e hmem
      simp only [List.mem_cons] at hmem
      rcases hmem with rfl | hmem
      · rfl
      · exact hk e hmem

theorem call_events_kind (c : OpenCall) : ∀ e ∈ call_events c, e.kind = .fd := by
  intro e he
  unfold call_events at he
  split at he <;> simp at he
  · rcases he with rfl | rfl <;> rfl
  · subst he; rfl

theorem discard_proc {α : Type} (r : Res α) : r.discard.proc = r.proc := by
  cases r <;> rfl

theorem tok_array_cons (ts : List String) : tok_array ts = ts.head? :: (tok_array ts).tail := by
  cases ts <;> simp [tok_array]

/-- Any built-in, called on an array with at least one cell, only prints and
changes directory, and leaves descriptors 0 and 1 as they were. -/
theorem call_fun_effects (sys : Sys) (fn : cmd_fun_t) (a0 : tok_t) (rest : List tok_t)
    (p : Proc) :
    ∃ evs, (call_fun sys fn (a0 :: rest) p).proc.trace = p.trace ++ evs ∧
      (∀ e ∈ evs, e.kind = .print ∨ e.kind = .chdir) ∧
      (call_fun sys fn (a0 :: rest) p).proc.fd0 = p.fd0 ∧
      (call_fun sys fn (a0 :: rest) p).proc.fd1 = p.fd1 := by
  by_cases hq : fn = .cmd_quit
  · subst hq
    exact ⟨[], by simp [call_fun, cmd_quit, Res.proc], by simp, rfl, rfl⟩
  · obtain ⟨r, q, evs, h, htr, hk, h0, h1⟩ := call_fun_frame sys fn a0 rest p hq
    rw [h]
    exact ⟨evs, htr, hk, h0, h1⟩

/-- The events of `run_prog` on a terminator-ended array, in either process:
the `fork`, then no further `fork` and no call of a handler or of `run_prog`. -/
theorem run_prog_frame (sys : Sys) (toks : List String) (p : Proc) :
    ∃ evs, (run_prog sys (tok_array toks) p).proc.trace
        = p.trace ++ Event.fork (sys.fork_ret p.clock) :: evs ∧
      (∀ e ∈ evs, e.kind = .wait ∨ e.kind = .print ∨ e.kind = .fd ∨ e.kind = .exec) := by
  by_cases hc : sys.fork_ret p.clock = 0
  · obtain ⟨evs, htr, hk⟩ := run_prog_child_frame sys toks []
      ((p.tick).log (Event.fork (sys.fork_ret p.clock)))
    refine ⟨(open_results sys p.nopen (open_calls toks)).flatMap call_events ++ evs, ?_, ?_⟩
    · unfold run_prog
      simp only [hc, if_true]
      rw [hc] at htr
      unfold tok_array
      rw [htr]
      simp [Proc.log, Proc.tick]
    · intro e he
      simp only [List.mem_append, List.mem_flatMap] at he
      rcases he with ⟨c, -, hce⟩ | he
      · right; right; left; exact call_events_kind c e hce
      · right; right; right; exact hk e he
  · unfold run_prog
    simp only [hc, if_false]
    unfold run_prog_parent
    by_cases hw : sys.waitpid_ret (p.tick.log (Event.fork (sys.fork_ret p.clock))).clock
        (sys.fork_ret p.clock) < 0
    · simp only [hw, if_true]
      exact ⟨[Event.waitpid (sys.fork_ret p.clock)
          (sys.waitpid_ret (p.clock + 1) (sys.fork_ret p.clock)),
        Event.printf "waitpid() error in run_prog()!\n"],
        by simp [Res.proc, Proc.log, Proc.tick], by simp [Event.kind]⟩
    · simp only [hw, if_false]
      exact ⟨[Event.waitpid (sys.fork_ret p.clock)
          (sys.waitpid_ret (p.clock + 1) (sys.fork_ret p.clock))],
        by simp [Res.proc, Proc.log, Proc.tick], by simp [Event.kind]⟩

theorem int_succ_line_number (k : Nat) :
    int_succ (line_number k) = line_number (k + 1) := by
  unfold int_succ line_number
  push_cast
  omega

theorem line_number_small (k : Nat) (h : k < 2 ^ 31) : line_number k = (k : Int) := by
  unfold line_number
  omega

theorem toString_nat_cast (k : Nat) : toString ((k : Nat) : Int) = toString k := rfl

theorem fn_ne_quit (d : fun_desc_t) (hd : d ∈ cmd_table) (h : d.cmd ≠ "quit") :
    d.fn ≠ .cmd_quit := by
  simp only [cmd_table, List.mem_cons, List.mem_singleton, List.not_mem_nil, or_false] at hd
  rcases hd with rfl | rfl | rfl | rfl <;> simp at h ⊢

/-- In the shell's own process a line that does not name `quit` is dispatched
by one call, and the step returns to the loop. -/
theorem dispatch_parent_ret (sys : Sys) (toks : List String) (p : Proc)
    (hq : toks.head? ≠ some "quit") (hpar : ∀ k, sys.fork_ret k ≠ 0) :
    ∃ q evs, dispatch sys (tok_array toks) p = .ret () q ∧
      q.trace = p.trace ++ dispatch_call (tok_array toks) :: evs ∧
      ∀ e ∈ evs, e.kind ≠ .call ∧ e.kind ≠ .prompt := by
  rcases lookup_cases toks.head? with ⟨k, d, hk, hc, hl⟩ | ⟨hno, hl⟩
  · cases toks with
    | nil => simp at hc
    | cons t ts =>
      have hne : d.fn ≠ .cmd_quit := by
        apply fn_ne_quit d (List.getElem?_mem hk)
        intro h
        rw [h] at hc
        exact hq hc
      rw [dispatch_builtin sys (t :: ts) p k d hk hl, dispatch_call_builtin (t :: ts) k d hk hc,
        tok_array_drop_one]
      obtain ⟨a0, tl, harr⟩ : ∃ a0 tl, tok_array ts = a0 :: tl := ⟨_, _, tok_array_cons ts⟩
      rw [harr]
      obtain ⟨r, q, evs, h, htr, hkind, -, -⟩ := call_fun_frame sys d.fn a0 tl
        (p.log (Event.call_builtin d.fn (a0 :: tl))) hne
      rw [h]
      refine ⟨q, evs, rfl, by rw [htr]; simp [Proc.log], ?_⟩
      intro e he
      rcases hkind e he with h | h <;> simp [h]
  · rw [dispatch_external sys toks p hl, dispatch_call_external toks hno]
    obtain ⟨q, evs, h, htr, hkind, -, -⟩ := run_prog_parent_frame sys (tok_array toks)
      (p.log (Event.call_run_prog (tok_array toks))) (hpar _)
    refine ⟨q, evs, h, by rw [htr]; simp [Proc.log], ?_⟩
    intro e he
    rcases hkind e he with h | h | h <;> simp [h]

theorem filterMap_prompt_text_nil (evs : List Event) (h : ∀ e ∈ evs, e.kind ≠ .prompt) :
    evs.filterMap Event.prompt_text = [] := by
  rw [List.filterMap_eq_nil_iff]
  intro e he
  have := h e he
  cases e <;> simp [Event.kind, Event.prompt_text] at this ⊢

theorem filter_call_nil (evs : List Event) (h : ∀ e ∈ evs, e.kind ≠ .call) :
    evs.filter (fun e => decide (e.kind = .call)) = [] := by
  rw [List.filter_eq_nil_iff]
  intro e he
  simpa using h e he

theorem prompt_text_prompt (text : String) :
    (Event.prompt text).prompt_text = some text := rfl

theorem kind_prompt (text : String) : (Event.prompt text).kind = .prompt := rfl

theorem dispatch_call_kind (tokens : List tok_t) :
    (dispatch_call tokens).kind = .call ∧ (dispatch_call tokens).prompt_text = none := by
  unfold dispatch_call
  split <;> exact ⟨rfl, rfl⟩

/-- The loop of `shell` in the shell's own process, entered after `n`
increments of the line counter. -/
theorem shell_loop_parent (sys : Sys) (interactive : Bool) (lines : List String) :
    ∀ (n : Nat) (p : Proc),
      (∀ l ∈ lines, (sys.get_toks (some l)).head? ≠ some "quit") →
      (∀ k, sys.fork_ret k ≠ 0) →
      ∃ q evs, shell_loop sys interactive lines (line_number n) p = .ret 0 q ∧
        q.trace = p.trace ++ evs ∧
        evs.filterMap Event.prompt_text
          = (if interactive then
              (List.range' (n + 1) lines.length).map
                (fun k => toString (line_number k) ++ ": ")
             else []) ∧
        evs.filter (fun e => decide (e.kind = .call))
          = lines.map (fun l => dispatch_call (tok_array (sys.get_toks (some l)))) := by
  induction lines with
  | nil =>
    intro n p _ _
    exact ⟨p, [], rfl, by simp, by simp, by simp⟩
  | cons l rest ih =>
    intro n p hq hpar
    obtain ⟨q1, evs1, hd, htr1, hk1⟩ := dispatch_parent_ret sys (sys.get_toks (some l)) p
      (hq l (by simp)) hpar
    have hq' : ∀ l' ∈ rest, (sys.get_toks (some l')).head? ≠ some "quit" :=
      fun l' hl' => hq l' (by simp [hl'])
    have hp1 := filterMap_prompt_text_nil evs1 (fun e he => (hk1 e he).2)
    have hc1 := filter_call_nil evs1 (fun e he => (hk1 e he).1)
    have hdc := dispatch_call_kind (tok_array (sys.get_toks (some l)))
    rw [shell_loop, hd]
    cases interactive with
    | false =>
      obtain ⟨q, evs, h, htr, hpr, hcl⟩ := ih n q1 hq' hpar
      simp only [Bool.false_eq_true, if_false] at hpr ⊢
      refine ⟨q, dispatch_call (tok_array (sys.get_toks (some l))) :: evs1 ++ evs, h, ?_, ?_, ?_⟩
      · rw [htr, htr1]; simp
      · simp [List.filterMap_cons, List.filterMap_append, hdc.2, hp1, hpr]
      · simp [List.filter_cons, hdc.1, hc1, hcl]
    | true =>
      obtain ⟨q, evs, h, htr, hpr, hcl⟩ := ih (n + 1)
        (q1.log (Event.prompt (toString (line_number (n + 1)) ++ ": "))) hq' hpar
      simp only [if_true] at hpr ⊢
      rw [int_succ_line_number]
      refine ⟨q, dispatch_call (tok_array (sys.get_toks (some l))) :: evs1
        ++ Event.prompt (toString (line_number (n + 1)) ++ ": ") :: evs, h, ?_, ?_, ?_⟩
      · rw [htr]; simp [Proc.log, htr1]
      · simp [List.filterMap_cons, List.filterMap_append, hdc.2, hp1, hpr, prompt_text_prompt,
          List.range'_succ]
      · simp [List.filter_cons, List.filter_append, hdc.1, hc1, hcl, kind_prompt]

/-- The loop of `redirect` stops before its fuel is used up: each round moves
to the next cell, and a read past the last cell stops the process. -/
theorem redirectLoop_fuel (sys : Sys) :
    ∀ (fuel i : Nat) (is_arg : Bool) (arg : List tok_t) (p q : Proc),
      i ≤ arg.length → arg.length + 1 ≤ fuel + i →
      redirectLoop sys fuel i is_arg arg p ≠ .halt (.fault .fuel) q := by
  intro fuel
  induction fuel with
  | zero => intro i is_arg arg p q h1 h2; omega
  | succ f ih =>
    intro i is_arg arg p q h1 h2
    rw [redirectLoop]
    cases hi : arg[i]? with
    | none => simp
    | some c =>
      cases c with
      | none => simp
      | some s =>
        have hlt : i < arg.length := (List.getElem?_eq_some.mp hi).1
        simp only []
        cases hn : arg[i + 1]? with
        | none =>
          by_cases h1 : s = "<"
          · simp [h1]
          · by_cases h2 : s = ">"
            · simp [h2]
            · simp only [h1, h2, if_false]
              split <;> exact ih _ _ _ _ _ (by first | omega | (simp; omega)) (by first | omega | (simp; omega))
        | some nxt =>
          by_cases h1 : s = "<"
          · subst h1
            simp only [if_true, show ("<" = ">") = False by decide, if_false]
            exact ih _ _ _ _ _ (by first | omega | (simp; omega)) (by first | omega | (simp; omega))
          · by_cases h2 : s = ">"
            · subst h2
              simp only [h1, if_false, if_true]
              exact ih _ _ _ _ _ (by first | omega | (simp; omega)) (by first | omega | (simp; omega))
            · simp only [h1, h2, if_false]
              split <;> exact ih _ _ _ _ _ (by first | omega | (simp; omega)) (by first | omega | (simp; omega))

/-- On every array, terminated or not, `redirect` stops within its fuel. -/
theorem redirect_fuel (sys : Sys) (arg : List tok_t) (p q : Proc) :
    redirect sys arg p ≠ .halt (.fault .fuel) q :=
  redirectLoop_fuel sys (arg.length + 1) 0 true arg p q (by omega) (by omega)

/-! ### Claims -/

/-- C1: for every command name, the null token included, `lookup` returns a
non-negative index exactly when the name is present and equal, character for
character, to the name of a table entry, and the index is then the position of
that entry (0 for `?`, 1 for `quit`, 2 for `pwd`, 3 for `cd`); for the null
token and for every other string (`CD`, `Quit`, `cd ` with a blank) it
returns -1. -/
theorem lookup_exact_match (cmd : tok_t) :
    (0 ≤ lookup cmd ↔ ∃ name, cmd = some name ∧ name ∈ cmd_table.map (fun d => d.cmd)) ∧
    (∀ (k : Nat) (d : fun_desc_t), cmd_table[k]? = some d → cmd = some d.cmd →
      lookup cmd = (k : Int)) ∧
    ((∀ d ∈ cmd_table, cmd ≠ some d.cmd) → lookup cmd = -1) ∧
    lookup (some "?") = 0 ∧ lookup (some "quit") = 1 ∧
    lookup (some "pwd") = 2 ∧ lookup (some "cd") = 3 ∧
    lookup none = -1 ∧ lookup (some "CD") = -1 ∧
    lookup (some "Quit") = -1 ∧ lookup (some "cd ") = -1 := by
  refine ⟨?_, ?_, ?_, by decide, by decide, by decide, by decide, by decide, by decide,
    by decide, by decide⟩
  · rcases lookup_cases cmd with ⟨k, d, hk, hc, hl⟩ | ⟨hno, hl⟩
    · rw [hl]
      refine ⟨fun _ => ⟨d.cmd, hc, ?_⟩, fun _ => by omega⟩
      exact List.mem_map.mpr ⟨d, List.getElem?_mem hk, rfl⟩
    · rw [hl]
      refine ⟨fun h => by omega, ?_⟩
      rintro ⟨name, hname, hmem⟩
      obtain ⟨d, hd, rfl⟩ := List.mem_map.mp hmem
      exact absurd hname (hno d hd)
  · intro k d hk hc
    subst hc
    have hk4 : k < 4 := by
      have := (List.getElem?_eq_some.mp hk).1
      simpa [cmd_table] using this
    interval_cases k <;> simp [cmd_table] at hk <;> subst hk <;> decide
  · intro h
    rcases lookup_cases cmd with ⟨k, d, hk, hc, -⟩ | ⟨-, hl⟩
    · exact absurd hc (h d (List.getElem?_mem hk))
    · exact hl

/-- C2: for every terminator-ended token array (whatever follows the
terminator, and whether or not an operator has a following token), `redirect`
returns the array in which the cells before the first `<` or `>` are unchanged
and every cell from that operator up to the original terminator holds the
terminator; cells after the terminator are untouched. The argument vector
`execv` then reads is exactly the tokens that precede the first operator, and
an array without operator is returned unchanged. -/
theorem redirect_clears_from_first_operator (sys : Sys) (toks : List String)
    (junk : List tok_t) (p : Proc) :
    ∃ arr q, redirect sys (toks.map some ++ none :: junk) p = .ret arr q ∧
      arr = (args_before_op toks).map some
          ++ List.replicate (toks.length - (args_before_op toks).length) none
          ++ none :: junk ∧
      (∀ s ∈ args_before_op toks, is_op s = false) ∧
      ((args_before_op toks).length < toks.length →
        ∃ s, toks[(args_before_op toks).length]? = some s ∧ is_op s = true) ∧
      (∀ j, j < (args_before_op toks).length →
        arr[j]? = (toks.map some ++ none :: junk)[j]?) ∧
      (∀ j, (args_before_op toks).length ≤ j → j ≤ toks.length → arr[j]? = some none) ∧
      (∀ j, toks.length < j → arr[j]? = (toks.map some ++ none :: junk)[j]?) ∧
      argv arr = args_before_op toks ∧
      ((∀ s ∈ toks, is_op s = false) → arr = toks.map some ++ none :: junk) := by
  have hle := args_before_op_length_le toks
  refine ⟨_, _, redirect_eq sys toks junk p, ?_, args_before_op_all toks,
    args_before_op_stop toks, ?_, ?_, ?_, argv_strip_args toks junk, ?_⟩
  · rw [strip_args_true]
  · intro j hj
    rw [strip_args_true, List.append_assoc,
      List.getElem?_append_left (by simpa using hj),
      List.getElem?_append_left (by simp; omega)]
    simp only [List.getElem?_map]
    rw [args_before_op_getElem? toks j hj]
  · intro j h1 h2
    rw [strip_args_true, List.append_assoc,
      List.getElem?_append_right (by simpa using h1)]
    simp only [List.length_map]
    by_cases h3 : j = toks.length
    · rw [List.getElem?_append_right (by simp; omega)]
      simp [h3]
    · rw [List.getElem?_append_left (by simp; omega)]
      simp [List.getElem?_replicate]
      omega
  · intro j hj
    rw [strip_args_true, List.append_assoc,
      List.getElem?_append_right (by simp; omega),
      List.getElem?_append_right (by simp; omega),
      List.getElem?_append_right (by simp; omega)]
    simp only [List.length_map, List.length_replicate]
    congr 1
    omega
  · intro h
    rw [strip_args_true, args_before_op_no_op toks h]
    simp

/-- C3: for every token array in which each operator is followed by a token,
and for every outcome of the `open` calls, `redirect` returns normally after
making exactly one `open` call per operator of the original sequence, in
order, on the token that follows the operator (a failed or an earlier
redirection stops nothing), each successful one followed by its `dup2`, and it
prints nothing. Afterwards descriptor 0 is bound to the file of the last `<`
whose `open` succeeded and is unchanged when there is none; descriptor 1
likewise for `>`. -/
theorem redirect_binds_descriptors (sys : Sys) (toks : List String)
    (junk : List tok_t) (p : Proc) (hwf : ops_followed toks = true) :
    ∃ arr q cs, redirect sys (toks.map some ++ none :: junk) p = .ret arr q ∧
      cs = open_results sys p.nopen (open_calls toks) ∧
      cs.length = toks.countP is_op ∧
      (∀ (j : Nat) (s : String), toks[j]? = some s → is_op s = true →
        ∃ name, toks[j + 1]? = some name ∧
          cs[op_number toks j]? = some ⟨some name, flags_of s,
            sys.open_ret (p.nopen + op_number toks j) (some name) (flags_of s)⟩) ∧
      q.trace = p.trace ++ cs.flatMap call_events ∧
      (∀ text, Event.printf text ∈ q.trace → Event.printf text ∈ p.trace) ∧
      q.fd0 = last_bound .rdonly p.fd0 cs ∧
      q.fd1 = last_bound .wronly_trunc_creat p.fd1 cs ∧
      (∀ pre c post, cs = pre ++ c :: post → c.flags = .rdonly → 0 ≤ c.ret →
        (∀ d ∈ post, d.flags = .rdonly → d.ret < 0) →
        q.fd0 = .file c.path .rdonly) ∧
      ((∀ c ∈ cs, c.flags = .rdonly → c.ret < 0) → q.fd0 = p.fd0) ∧
      (∀ pre c post, cs = pre ++ c :: post → c.flags = .wronly_trunc_creat → 0 ≤ c.ret →
        (∀ d ∈ post, d.flags = .wronly_trunc_creat → d.ret < 0) →
        q.fd1 = .file c.path .wronly_trunc_creat) ∧
      ((∀ c ∈ cs, c.flags = .wronly_trunc_creat → c.ret < 0) → q.fd1 = p.fd1) := by
  have hfail : ∀ (fl : OpenFlags) (l : List OpenCall),
      (∀ d ∈ l, d.flags = fl → d.ret < 0) → ∀ d ∈ l, opened_with fl d = false := by
    intro fl l h d hd
    by_cases hf : d.flags = fl
    · have := h d hd hf
      simp [opened_with, hf]; omega
    · simp [opened_with, hf]
  refine ⟨_, _, _, redirect_eq sys toks junk p, rfl, ?_, ?_, ?_, ?_, ?_, ?_, ?_, ?_, ?_, ?_⟩
  · rw [open_results_length, open_calls_length]
  · intro j s hj hop
    obtain ⟨name, hname⟩ := ops_followed_getElem? toks hwf j s hj hop
    refine ⟨name, hname, ?_⟩
    have := open_results_getElem? sys (open_calls toks) p.nopen (op_number toks j) _
      (open_calls_getElem? toks j s hj hop)
    simpa [hname] using this
  · rw [redirect_effect_eq]
  · intro text h
    rw [redirect_effect_eq] at h
    simp only [List.mem_append, List.mem_flatMap] at h
    rcases h with h | ⟨c, _, hc⟩
    · exact h
    · exfalso
      unfold call_events at hc
      split at hc <;> simp at hc
  · rw [redirect_effect_eq]
  · rw [redirect_effect_eq]
  · intro pre c post hcs hfl hret hpost
    rw [redirect_effect_eq]
    simp only []
    rw [hcs, last_bound_last _ _ _ _ _ (by simp [opened_with, hfl, hret])
      (hfail _ _ hpost)]
  · intro h
    rw [redirect_effect_eq]
    exact last_bound_none _ _ _ (hfail _ _ h)
  · intro pre c post hcs hfl hret hpost
    rw [redirect_effect_eq]
    simp only []
    rw [hcs, last_bound_last _ _ _ _ _ (by simp [opened_with, hfl, hret])
      (hfail _ _ hpost)]
  · intro h
    rw [redirect_effect_eq]
    exact last_bound_none _ _ _ (hfail _ _ h)

/-- Witness for C3: on `cat < in > out` with both opens succeeding, descriptor
0 ends bound to `in` and descriptor 1 to `out`. -/
theorem redirect_binds_descriptors_witness :
    ops_followed ["cat", "<", "in", ">", "out"] = true ∧
    ∃ arr q, redirect sysChild (["cat", "<", "in", ">", "out"].map some ++ [none]) proc0
        = .ret arr q ∧
      q.fd0 = .file (some "in") .rdonly ∧
      q.fd1 = .file (some "out") .wronly_trunc_creat := by
  refine ⟨by decide, ?_⟩
  obtain ⟨arr, q, cs, h, hcs, -, -, -, -, h0, h1, -⟩ :=
    redirect_binds_descriptors sysChild ["cat", "<", "in", ">", "out"] [] proc0 (by decide)
  refine ⟨arr, q, h, ?_, ?_⟩
  · rw [h0, hcs]; decide
  · rw [h1, hcs]; decide

/-- C4: in the child of `run_prog`, for a token array whose first token is a
program name (a token that is not a redirection operator), with `args` the
tokens between the name and the first operator and `path` the entries
`get_toks` finds in `getenv("PATH")`: after the redirections, the first `execv`
attempt uses the name as path and `name :: args` as vector. If it succeeds
nothing else is attempted. If it fails, the entries are tried in listed order,
the attempt for entry `d` using the path `d/name` (built from the original
name) and the vector `d/name :: args`; the first attempt that succeeds
replaces the process image and no attempt follows it; when all fail,
`run_prog` returns. -/
theorem run_prog_child_exec_order (sys : Sys) (name : String) (rest : List String)
    (junk : List tok_t) (p : Proc) (hname : is_op name = false) :
    ∃ arr q, redirect sys ((name :: rest).map some ++ none :: junk) p = .ret arr q ∧
      argv arr = name :: args_before_op rest ∧
      (sys.execv_ok p.nexec (some name) (name :: args_before_op rest) = true →
        run_prog_child sys ((name :: rest).map some ++ none :: junk) p
          = .halt (.replaced (some name) (name :: args_before_op rest))
              { q with
                nexec := p.nexec + 1,
                trace := q.trace
                  ++ [Event.execv (some name) (name :: args_before_op rest) true] }) ∧
      (∀ (pre : List String) (d : String) (post : List String),
        sys.get_toks sys.getenv_PATH = pre ++ d :: post →
        sys.execv_ok p.nexec (some name) (name :: args_before_op rest) = false →
        (∀ (j : Nat) (e : String), pre[j]? = some e →
          sys.execv_ok (p.nexec + 1 + j) (some (e ++ "/" ++ name))
            ((e ++ "/" ++ name) :: args_before_op rest) = false) →
        sys.execv_ok (p.nexec + 1 + pre.length) (some (d ++ "/" ++ name))
            ((d ++ "/" ++ name) :: args_before_op rest) = true →
        run_prog_child sys ((name :: rest).map some ++ none :: junk) p
          = .halt (.replaced (some (d ++ "/" ++ name))
                ((d ++ "/" ++ name) :: args_before_op rest))
              { q with
                nexec := p.nexec + 1 + pre.length + 1,
                trace := q.trace
                  ++ [failed_exec (name, name :: args_before_op rest)]
                  ++ pre.map (fun e => failed_exec
                      (e ++ "/" ++ name, (e ++ "/" ++ name) :: args_before_op rest))
                  ++ [Event.execv (some (d ++ "/" ++ name))
                      ((d ++ "/" ++ name) :: args_before_op rest) true] }) ∧
      (sys.execv_ok p.nexec (some name) (name :: args_before_op rest) = false →
        (∀ (j : Nat) (e : String), (sys.get_toks sys.getenv_PATH)[j]? = some e →
          sys.execv_ok (p.nexec + 1 + j) (some (e ++ "/" ++ name))
            ((e ++ "/" ++ name) :: args_before_op rest) = false) →
        run_prog_child sys ((name :: rest).map some ++ none :: junk) p
          = .ret ()
              { q with
                nexec := p.nexec + 1 + (sys.get_toks sys.getenv_PATH).length,
                trace := q.trace
                  ++ [failed_exec (name, name :: args_before_op rest)]
                  ++ (sys.get_toks sys.getenv_PATH).map (fun e => failed_exec
                      (e ++ "/" ++ name, (e ++ "/" ++ name) :: args_before_op rest)) }) := by
  have hargs : argv (strip_args true rest ++ none :: junk) = args_before_op rest :=
    argv_strip_args rest junk
  have hnx := redirect_effect_nexec sys (name :: rest) p
  refine ⟨_, _, redirect_eq sys (name :: rest) junk p, ?_, ?_, ?_, ?_⟩
  · rw [strip_args_cons_arg name rest hname]
    simp [argv, hargs]
  · intro hok
    unfold run_prog_child
    rw [redirect_eq, strip_args_cons_arg name rest hname]
    simp [argv, hargs, hnx, hok]
  · intro pre d post hpath hfail hpre hok
    unfold run_prog_child
    rw [redirect_eq, strip_args_cons_arg name rest hname]
    simp only [List.cons_append, List.getElem?_cons_zero, argv_cons_some, hargs, hnx, hfail,
      hpath]
    rw [if_neg (by simp)]
    rw [path_loop_first_ok]
    · simp [hargs, failed_exec, Nat.add_assoc]
    · intro j e hj
      simpa [hargs, Nat.add_assoc] using hpre j e hj
    · simpa [hargs, Nat.add_assoc] using hok
  · intro hfail hall
    unfold run_prog_child
    rw [redirect_eq, strip_args_cons_arg name rest hname]
    simp only [List.cons_append, List.getElem?_cons_zero, argv_cons_some, hargs, hnx, hfail]
    rw [if_neg (by simp)]
    rw [path_loop_all_fail]
    · simp [hargs, failed_exec, Nat.add_assoc]
    · intro j e hj
      simpa [hargs, Nat.add_assoc] using hall j e hj

/-- Witness for C4: with PATH entries `/usr/bin`, `/bin` and only `/bin/ls`
executable, the child of `ls -l > out` ends running `/bin/ls` with the vector
`/bin/ls -l`. -/
theorem run_prog_child_exec_order_witness :
    is_op "ls" = false ∧
    ∃ q, run_prog_child sysPath (["ls", "-l", ">", "out"].map some ++ [none]) proc0
      = .halt (.replaced (some "/bin/ls") ["/bin/ls", "-l"]) q := by
  refine ⟨by decide, ?_⟩
  obtain ⟨arr, q, -, -, -, h, -⟩ :=
    run_prog_child_exec_order sysPath "ls" ["-l", ">", "out"] [] proc0 (by decide)
  exact ⟨_, h ["/usr/bin"] "/bin" [] (by decide) (by decide)
    (by intro j e hj
        cases j with
        | zero => simp at hj; subst hj; decide
        | succ k => simp at hj)
    (by decide)⟩

/-- C5 (the code at the failing input): in the child (`fork` returned 0), with
an empty PATH and `execv` failing, `run_prog` returns for the line
`nosuchprog`; the child goes on with the loop of `shell`, runs the next line
`?` as a built-in, and `shell` returns 0 at the end of the input. -/
theorem child_continues_after_failed_exec :
    run_prog sysChild (tok_array ["nosuchprog"]) proc0
      = .ret () { proc0 with
          nexec := 1, clock := 1,
          trace := [Event.fork 0, Event.execv (some "nosuchprog") ["nosuchprog"] false] } ∧
    shell sysChild ["nosuchprog", "?"] proc0
      = .ret 0 { proc0 with
          nexec := 1, clock := 1,
          trace := [Event.call_run_prog [some "nosuchprog", none],
            Event.fork 0,
            Event.execv (some "nosuchprog") ["nosuchprog"] false,
            Event.call_builtin .cmd_help [none],
            Event.printf "? - show this help menu\n",
            Event.printf "quit - quit the command shell\n",
            Event.printf "pwd - print the current working directory\n",
            Event.printf "cd - change the current working directory\n"] } := by
  constructor <;> decide

/-- C6 (the code at the failing input): for the tokens `cat <`, where the
operator is the last token, `redirect` calls `open` with the cell after the
operator, which is the terminator (a null path), and duplicates the result
onto descriptor 0 when that call does not fail. It reads no cell after the
terminator, and clears the operator. -/
theorem redirect_opens_null_path (sys : Sys) (p : Proc) :
    ∃ q, redirect sys (tok_array ["cat", "<"]) p = .ret [some "cat", none, none] q ∧
      q.trace = p.trace
        ++ call_events ⟨none, .rdonly, sys.open_ret p.nopen none .rdonly⟩ ∧
      Event.open_ none .rdonly (sys.open_ret p.nopen none .rdonly) ∈ q.trace ∧
      q.fd0 = (if 0 ≤ sys.open_ret p.nopen none .rdonly
                then Binding.file none .rdonly else p.fd0) := by
  have h := redirect_eq sys ["cat", "<"] [] p
  have hc : open_calls ["cat", "<"] = [(none, OpenFlags.rdonly)] := by decide
  have hs : strip_args true ["cat", "<"] ++ [none] = [some "cat", none, none] := by decide
  rw [hs] at h
  refine ⟨_, h, ?_, ?_, ?_⟩
  · rw [redirect_effect_eq, hc]
    simp [open_results]
  · rw [redirect_effect_eq, hc]
    simp only [open_results, List.flatMap_cons, List.flatMap_nil, List.append_nil,
      call_events]
    split <;> simp
  · rw [redirect_effect_eq, hc]
    simp only [open_results, last_bound_cons, last_bound_nil, opened_with]
    by_cases hr : 0 ≤ sys.open_ret p.nopen none .rdonly <;> simp [hr]

/-- C7: for every input line, with `toks` the tokens `get_toks` finds, one
dispatch step does one of two things. If the first token is the name of a
built-in, the step is the call of that built-in's handler, in the same process,
on the cells from index 1 on (all remaining tokens and the terminator, the
redirection tokens among them): after the call event the step only prints
or changes directory, so it makes no `fork`, no `open` or `dup2`, and no
further call. Otherwise (also when there is no token) the step is one call of
`run_prog` on the whole array, which forks once and calls no handler. -/
theorem dispatch_step (sys : Sys) (toks : List String) (p : Proc) :
    (∀ d ∈ cmd_table, toks.head? = some d.cmd →
      (tok_array toks).drop 1 = tok_array toks.tail ∧
      dispatch sys (tok_array toks) p
        = (call_fun sys d.fn (tok_array toks.tail)
            (p.log (Event.call_builtin d.fn (tok_array toks.tail)))).discard ∧
      ∃ evs, (dispatch sys (tok_array toks) p).proc.trace
          = p.trace ++ Event.call_builtin d.fn (tok_array toks.tail) :: evs ∧
        ∀ e ∈ evs, e.kind = .print ∨ e.kind = .chdir) ∧
    ((∀ d ∈ cmd_table, toks.head? ≠ some d.cmd) →
      dispatch sys (tok_array toks) p
        = run_prog sys (tok_array toks) (p.log (Event.call_run_prog (tok_array toks))) ∧
      ∃ evs, (dispatch sys (tok_array toks) p).proc.trace
          = p.trace ++ Event.call_run_prog (tok_array toks)
              :: Event.fork (sys.fork_ret p.clock) :: evs ∧
        ∀ e ∈ evs, e.kind ≠ .call ∧ e.kind ≠ .fork) := by
  constructor
  · intro d hd hhead
    cases toks with
    | nil => simp at hhead
    | cons t ts =>
      simp only [List.tail_cons]
      have hdrop := tok_array_drop_one t ts
      rcases lookup_cases (t :: ts).head? with ⟨k, d2, hk, hc, hl⟩ | ⟨hno, -⟩
      · have hdd : d2 = d := by
          rw [hhead] at hc
          simp only [Option.some.injEq] at hc
          simp only [cmd_table, List.mem_cons, List.mem_singleton, List.not_mem_nil,
            or_false] at hd
          have hk4 : k < 4 := by
            have := (List.getElem?_eq_some.mp hk).1
            simpa [cmd_table] using this
          interval_cases k <;> simp [cmd_table] at hk <;> subst hk <;>
            rcases hd with rfl | rfl | rfl | rfl <;> first | rfl | (exfalso; revert hc; decide)
        subst hdd
        have heq := dispatch_builtin sys (t :: ts) p k d2 hk hl
        rw [hdrop] at heq
        refine ⟨hdrop, heq, ?_⟩
        rw [heq, discard_proc]
        obtain ⟨a0, tl, harr⟩ : ∃ a0 tl, tok_array ts = a0 :: tl := ⟨_, _, tok_array_cons ts⟩
        rw [harr]
        obtain ⟨evs, htr, hkind, -, -⟩ := call_fun_effects sys d2.fn a0 tl
          (p.log (Event.call_builtin d2.fn (a0 :: tl)))
        exact ⟨evs, by rw [htr]; simp [Proc.log], hkind⟩
      · exact absurd hhead (hno d hd)
  · intro hno
    rcases lookup_cases toks.head? with ⟨k, d, hk, hc, -⟩ | ⟨-, hl⟩
    · exact absurd hc (hno d (List.getElem?_mem hk))
    · have heq := dispatch_external sys toks p hl
      refine ⟨heq, ?_⟩
      rw [heq]
      obtain ⟨evs, htr, hkind⟩ := run_prog_frame sys toks
        (p.log (Event.call_run_prog (tok_array toks)))
      refine ⟨evs, by rw [htr]; simp [Proc.log], ?_⟩
      intro e he
      rcases hkind e he with h | h | h | h <;> simp [h]

/-- C10: for every input line, in the shell's own process (the step runs a
built-in, or `fork` returned a nonzero value there), the dispatch step leaves
descriptors 0 and 1 bound as before and makes no `open`, `dup2` or `execv`.
In the process where `fork` returned 0, the events of the step are: the call
of `run_prog`, the `fork`, then the `open` and `dup2` calls of `redirect`, and
only after them `execv` attempts. -/
theorem dispatch_keeps_shell_descriptors (sys : Sys) (toks : List String) (p : Proc) :
    ((lookup toks.head? < 0 → sys.fork_ret p.clock ≠ 0) →
      (dispatch sys (tok_array toks) p).proc.fd0 = p.fd0 ∧
      (dispatch sys (tok_array toks) p).proc.fd1 = p.fd1 ∧
      ∃ evs, (dispatch sys (tok_array toks) p).proc.trace = p.trace ++ evs ∧
        ∀ e ∈ evs, e.kind ≠ .fd ∧ e.kind ≠ .exec) ∧
    (lookup toks.head? < 0 → sys.fork_ret p.clock = 0 →
      ∃ evs, (dispatch sys (tok_array toks) p).proc.trace
          = p.trace ++ [Event.call_run_prog (tok_array toks), Event.fork 0]
            ++ (open_results sys p.nopen (open_calls toks)).flatMap call_events ++ evs ∧
        ∀ e ∈ evs, e.kind = .exec) := by
  constructor
  · intro hshell
    rcases lookup_cases toks.head? with ⟨k, d, hk, hc, hl⟩ | ⟨-, hl⟩
    · cases toks with
      | nil => simp at hc
      | cons t ts =>
        rw [dispatch_builtin sys (t :: ts) p k d hk hl, discard_proc, tok_array_drop_one]
        obtain ⟨a0, tl, harr⟩ : ∃ a0 tl, tok_array ts = a0 :: tl := ⟨_, _, tok_array_cons ts⟩
        rw [harr]
        obtain ⟨evs, htr, hkind, h0, h1⟩ := call_fun_effects sys d.fn a0 tl
          (p.log (Event.call_builtin d.fn (a0 :: tl)))
        refine ⟨h0, h1, Event.call_builtin d.fn (a0 :: tl) :: evs,
          by rw [htr]; simp [Proc.log], ?_⟩
        intro e he
        simp only [List.mem_cons] at he
        rcases he with rfl | he
        · simp [Event.kind]
        · rcases hkind e he with h | h <;> simp [h]
    · have hpar := hshell (by omega)
      rw [dispatch_external sys toks p hl]
      obtain ⟨q, evs, h, htr, hkind, h0, h1⟩ := run_prog_parent_frame sys (tok_array toks)
        (p.log (Event.call_run_prog (tok_array toks))) hpar
      rw [h]
      refine ⟨h0, h1, Event.call_run_prog (tok_array toks) :: evs,
        by simp only [Res.proc]; rw [htr]; simp [Proc.log], ?_⟩
      intro e he
      simp only [List.mem_cons] at he
      rcases he with rfl | he
      · simp [Event.kind]
      · rcases hkind e he with h | h | h <;> simp [h]
  · intro hl hc
    have hl1 : lookup toks.head? = -1 := by
      rcases lookup_cases toks.head? with ⟨k, d, -, -, hk⟩ | ⟨-, h⟩
      · omega
      · exact h
    rw [dispatch_external sys toks p hl1]
    obtain ⟨evs, htr, hkind⟩ := run_prog_child_frame sys toks []
      (((p.log (Event.call_run_prog (tok_array toks))).tick).log (Event.fork 0))
    refine ⟨evs, ?_, hkind⟩
    unfold run_prog
    have hc2 : sys.fork_ret (p.log (Event.call_run_prog (tok_array toks))).clock = 0 := hc
    simp only [hc2, if_true]
    unfold tok_array at htr ⊢
    rw [htr]
    simp [Proc.log, Proc.tick]

/-- Witness for C10: the interactive shell process dispatching `ls -l > out`
keeps its descriptors 0 and 1. -/
theorem dispatch_keeps_shell_descriptors_witness :
    (lookup ["ls", "-l", ">", "out"].head? < 0 → sysParent.fork_ret proc0.clock ≠ 0) ∧
    (dispatch sysParent (tok_array ["ls", "-l", ">", "out"]) proc0).proc.fd0 = proc0.fd0 ∧
    (dispatch sysParent (tok_array ["ls", "-l", ">", "out"]) proc0).proc.fd1 = proc0.fd1 :=
  ⟨by decide,
    ((dispatch_keeps_shell_descriptors sysParent ["ls", "-l", ">", "out"] proc0).1
      (by decide)).1,
    ((dispatch_keeps_shell_descriptors sysParent ["ls", "-l", ">", "out"] proc0).1
      (by decide)).2.1⟩

/-- C8: for every finite input of `n` lines none of which names `quit`, in
the shell's own process (every `fork` returns a nonzero value there) and for
every outcome of `chdir`, `waitpid` and the other calls, `shell` returns 0
after one dispatch call per line, in input order. When interactive it prints
exactly `n + 1` prompts, the `k`-th showing the value of the `int` line counter
after `k` increments, which for `n` below `2 ^ 31` are `0: `, `1: `, ...,
`n: `; when not interactive it prints no prompt. -/
theorem shell_runs_every_line (sys : Sys) (lines : List String) (p : Proc)
    (hquit : ∀ l ∈ lines, (sys.get_toks (some l)).head? ≠ some "quit")
    (hparent : ∀ k, sys.fork_ret k ≠ 0) :
    ∃ q evs, shell sys lines p = .ret 0 q ∧ q.trace = p.trace ++ evs ∧
      evs.filter (fun e => decide (e.kind = .call))
        = lines.map (fun l => dispatch_call (tok_array (sys.get_toks (some l)))) ∧
      (sys.isatty = false → evs.filterMap Event.prompt_text = []) ∧
      (sys.isatty = true →
        evs.filterMap Event.prompt_text
          = (List.range (lines.length + 1)).map
              (fun k => toString (line_number k) ++ ": ")) ∧
      (sys.isatty = true → lines.length < 2 ^ 31 →
        evs.filterMap Event.prompt_text
          = (List.range (lines.length + 1)).map (fun k => toString k ++ ": ")) := by
  have h0 : line_number 0 = 0 := by decide
  unfold shell
  cases hi : sys.isatty with
  | false =>
    obtain ⟨q, evs, h, htr, hpr, hcl⟩ := shell_loop_parent sys false lines 0 p hquit hparent
    rw [h0] at h
    simp only [Bool.false_eq_true, if_false] at hpr ⊢
    exact ⟨q, evs, h, htr, hcl, fun _ => hpr, fun h => absurd h (by simp),
      fun h => absurd h (by simp)⟩
  | true =>
    obtain ⟨q, evs, h, htr, hpr, hcl⟩ := shell_loop_parent sys true lines 0
      (p.log (Event.prompt (toString (0 : Int) ++ ": "))) hquit hparent
    rw [h0] at h
    simp only [if_true] at hpr ⊢
    have hall : (Event.prompt (toString (0 : Int) ++ ": ") :: evs).filterMap Event.prompt_text
        = (List.range (lines.length + 1)).map
            (fun k => toString (line_number k) ++ ": ") := by
      rw [List.filterMap_cons, prompt_text_prompt, hpr, List.range_eq_range',
        List.range'_succ, List.map_cons, h0]
    refine ⟨q, Event.prompt (toString (0 : Int) ++ ": ") :: evs, h, ?_, ?_,
      fun h => absurd h (by simp), fun _ => hall, fun _ hlen => ?_⟩
    · rw [htr]; simp [Proc.log]
    · rw [List.filter_cons, kind_prompt, hcl]
      rfl
    · rw [hall]
      apply List.map_congr_left
      intro k hk
      have hk2 : k < 2 ^ 31 := by
        have := List.mem_range.mp hk
        omega
      rw [line_number_small k hk2, toString_nat_cast]

/-- Witness for C8: the interactive shell process on the three lines
`cd /tmp`, `nosuchprog`, `?`. -/
theorem shell_runs_every_line_witness :
    (∀ l ∈ ["cd /tmp", "nosuchprog", "?"],
      (sysParent.get_toks (some l)).head? ≠ some "quit") ∧
    (∀ k, sysParent.fork_ret k ≠ 0) ∧
    ∃ q evs, shell sysParent ["cd /tmp", "nosuchprog", "?"] proc0 = .ret 0 q ∧
      q.trace = proc0.trace ++ evs ∧
      evs.filterMap Event.prompt_text = ["0: ", "1: ", "2: ", "3: "] ∧
      evs.filter (fun e => decide (e.kind = .call))
        = [Event.call_builtin .cmd_cd [some "/tmp", none],
           Event.call_run_prog [some "nosuchprog", none],
           Event.call_builtin .cmd_help [none]] := by
  have hq : ∀ l ∈ ["cd /tmp", "nosuchprog", "?"],
      (sysParent.get_toks (some l)).head? ≠ some "quit" := by decide
  have hp : ∀ k, sysParent.fork_ret k ≠ 0 := fun _ => by
    show (100 : Int) ≠ 0
    decide
  refine ⟨hq, hp, ?_⟩
  obtain ⟨q, evs, h, htr, hcl, -, -, hpr⟩ :=
    shell_runs_every_line sysParent ["cd /tmp", "nosuchprog", "?"] proc0 hq hp
  refine ⟨q, evs, h, htr, ?_, ?_⟩
  · rw [hpr rfl (by decide)]; decide
  · rw [hcl]; decide

/-- C9 (counterexample): when the allocation of the buffer in `cmd_pwd` fails, a `cmd_cd` whose `chdir` succeeds returns 1 and prints
nothing: no line with the new working directory. -/
theorem cmd_cd_silent_without_buffer :
    sysNoMem.chdir_to proc0.clock proc0.cwd (some "/tmp") = some "/tmp" ∧
    cmd_cd sysNoMem [some "/tmp", none] proc0
      = .ret 1 { proc0 with cwd := "/tmp", clock := 2,
                            trace := [Event.chdir (some "/tmp") true] } ∧
    ¬ ∃ text, Event.printf text ∈ (cmd_cd sysNoMem [some "/tmp", none] proc0).proc.trace := by
  have h : cmd_cd sysNoMem [some "/tmp", none] proc0
      = .ret 1 { proc0 with cwd := "/tmp", clock := 2,
                            trace := [Event.chdir (some "/tmp") true] } := by decide
  refine ⟨rfl, h, ?_⟩
  rw [h]
  simp [Res.proc]

/-- C9 (amended): for every argument `args[0]` (the null cell included). If
`chdir` succeeds, `cmd_cd` returns 1 in the new directory and its output is
exactly that of `cmd_pwd` run there: nothing when the buffer allocation fails,
and the one line holding the new working directory when the allocation and
`getcwd` succeed. If `chdir` fails, `cmd_cd` returns 0, prints the one line
`Change working directory aborts!` and nothing else, and the working directory
is the one before the call. -/
theorem cmd_cd_outcomes (sys : Sys) (a0 : tok_t) (rest : List tok_t) (p : Proc) :
    (∀ dir, sys.chdir_to p.clock p.cwd a0 = some dir →
      ∃ q, cmd_cd sys (a0 :: rest) p = .ret 1 q ∧ q.cwd = dir ∧
        cmd_pwd sys none (({ p with cwd := dir }.tick).log (Event.chdir a0 true))
          = .ret 1 q ∧
        (sys.malloc (p.clock + 1) (to_size_t (sys.pathconf_ret (p.clock + 1))) = none →
          q.trace = p.trace ++ [Event.chdir a0 true]) ∧
        (∀ junk,
          sys.malloc (p.clock + 1) (to_size_t (sys.pathconf_ret (p.clock + 1))) = some junk →
          sys.getcwd_ok (p.clock + 1) dir (to_size_t (sys.pathconf_ret (p.clock + 1))) = true →
          q.trace = p.trace ++ [Event.chdir a0 true, Event.printf (dir ++ "\n")])) ∧
    (sys.chdir_to p.clock p.cwd a0 = none →
      ∃ q, cmd_cd sys (a0 :: rest) p = .ret 0 q ∧ q.cwd = p.cwd ∧
        q.trace = p.trace
          ++ [Event.chdir a0 false, Event.printf "Change working directory aborts!\n"]) := by
  constructor
  · intro dir hdir
    obtain ⟨q, evs, hq, -, -, -, -, hcwd⟩ :=
      cmd_pwd_frame sys none (({ p with cwd := dir }.tick).log (Event.chdir a0 true))
    refine ⟨q, ?_, by rw [hcwd]; rfl, hq, ?_, ?_⟩
    · unfold cmd_cd
      simp only [List.getElem?_cons_zero, hdir, hq]
    · intro hm
      have : cmd_pwd sys none (({ p with cwd := dir }.tick).log (Event.chdir a0 true))
          = .ret 1 ((({ p with cwd := dir }.tick).log (Event.chdir a0 true)).tick) := by
        unfold cmd_pwd
        simp only [Proc.tick, Proc.log] at hm ⊢
        rw [hm]
      rw [this] at hq
      injection hq with _ hq
      rw [← hq]
      rfl
    · intro junk hm hg
      have : cmd_pwd sys none (({ p with cwd := dir }.tick).log (Event.chdir a0 true))
          = .ret 1 (((({ p with cwd := dir }.tick).log (Event.chdir a0 true)).tick).log
              (Event.printf (dir ++ "\n"))) := by
        unfold cmd_pwd
        simp only [Proc.tick, Proc.log] at hm hg ⊢
        rw [hm]
        simp only [hg, if_true]
      rw [this] at hq
      injection hq with _ hq
      rw [← hq]
      simp [Proc.log, Proc.tick]
  · intro hnone
    unfold cmd_cd
    simp only [List.getElem?_cons_zero, hnone]
    exact ⟨_, rfl, rfl, by simp [Proc.log, Proc.tick]⟩

end Shell
